import Mathlib

/-!
Verification of the KIELER/KEITH diagram core: the `DepthMap`/`Region`
viewport-driven expand/collapse engine (src/depth-map.ts) and the layered
constraint resolver (keith-interactive .../layered/constraint-utils.ts).

The TypeScript is embedded shallowly: numbers are modelled as `Rat`
(exact arithmetic; the source only adds, divides and compares),
JavaScript `Set` objects are insertion-ordered lists with set semantics,
object fields that start out `undefined` are `Option`-valued, and
in-place mutation becomes explicit state passing.  Object identity of
regions and nodes is represented by numeric ids, and `===` between two
embedded values is structural equality of the modelled values.
-/

namespace KeithCore

/-- Viewport as in sprotty: a scroll point and a zoom factor.
`scrollId` models the identity of the `scroll` object: the skip rule
of `expandCollapse` compares `this.viewport?.scroll === viewport.scroll`
by reference, and the recorded viewport keeps the passed `scroll`
object (`this.viewport = { zoom: viewport.zoom, scroll: viewport.scroll }`),
so the comparison succeeds exactly for the same scroll object (equal
`scrollId`) and an equal zoom number. -/
structure Viewport where
  scroll : Rat × Rat
  scrollId : Nat
  zoom : Rat
  deriving DecidableEq, Repr

/-- An axis-aligned rectangle (sprotty `Bounds`): x, y, width, height. -/
structure Rect where
  x : Rat
  y : Rat
  width : Rat
  height : Rat
  deriving DecidableEq, Repr

/--
A region tree node, the static data of one `Region` of depth-map.ts:
the region id (object identity of the `Region`), the bounds of its
`boundingRectangle` KNode (width and height are the only parts read, by
`sizeInViewport`; `none` models an absent bounding rectangle), the
externally populated `absoluteBounds` (`none` = not yet populated), the
ids of the KNodes in `elements`, and the child regions (the `children`
set in insertion order).  `parent` back-references are recovered from
the tree.
-/
inductive RTree where
  | node (rid : Nat) (br : Option (Rat × Rat)) (absoluteBounds : Option Rect)
      (elements : List Nat) (children : List RTree)
  deriving Repr

/-- Region id of the root of a region subtree. -/
def RTree.rid : RTree → Nat
  | .node i _ _ _ _ => i

/-- Bounding-rectangle size (width, height) of a region, if present. -/
def RTree.br : RTree → Option (Rat × Rat)
  | .node _ b _ _ _ => b

/-- The `absoluteBounds` of a region, if already populated. -/
def RTree.absoluteBounds : RTree → Option Rect
  | .node _ _ a _ _ => a

/-- The ids of the KNodes in the region's `elements` list. -/
def RTree.elements : RTree → List Nat
  | .node _ _ _ e _ => e

/-- The child regions, in insertion order. -/
def RTree.children : RTree → List RTree
  | .node _ _ _ _ c => c

mutual
/-- All region ids in a region subtree (root first, preorder). -/
def subtreeIds : RTree → List Nat
  | .node i _ _ _ cs => i :: subtreeIdsList cs

/-- All region ids in a list of region subtrees. -/
def subtreeIdsList : List RTree → List Nat
  | [] => []
  | t :: ts => subtreeIds t ++ subtreeIdsList ts
end

mutual
/-- All element (KNode) ids in a region subtree. -/
def subtreeElems : RTree → List Nat
  | .node _ _ _ es cs => es ++ subtreeElemsList cs

/-- All element ids in a list of region subtrees. -/
def subtreeElemsList : List RTree → List Nat
  | [] => []
  | t :: ts => subtreeElems t ++ subtreeElemsList ts
end

mutual
/-- Child-to-parent id pairs `(child.rid, parent.rid)` of a region subtree. -/
def parentPairsTree : RTree → List (Nat × Nat)
  | .node i _ _ _ cs => parentPairsChildren i cs

/-- Child-to-parent id pairs contributed by a parent id and its child list. -/
def parentPairsChildren : Nat → List RTree → List (Nat × Nat)
  | _, [] => []
  | i, c :: rest => (c.rid, i) :: (parentPairsTree c ++ parentPairsChildren i rest)
end

/-- Child-to-parent id pairs of a whole region forest. -/
def forestPairs : List RTree → List (Nat × Nat)
  | [] => []
  | t :: ts => parentPairsTree t ++ forestPairs ts

mutual
/-- Find the subtree rooted at a given region id, starting at a subtree. -/
def findTreeT : RTree → Nat → Option RTree
  | .node j b a es cs, i =>
    if j = i then some (.node j b a es cs) else findTree? cs i

/-- Find the subtree rooted at a given region id in a forest. -/
def findTree? : List RTree → Nat → Option RTree
  | [], _ => none
  | t :: ts, i =>
    match findTreeT t i with
    | some r => some r
    | none => findTree? ts i
end

/-- JavaScript `Set.delete` on an insertion-ordered list: drop the occurrence. -/
def ordErase : List Nat → Nat → List Nat
  | [], _ => []
  | j :: l, i => if j = i then l else j :: ordErase l i

/-- Key lookup in an association list of ids. -/
def lookupPair : List (Nat × Nat) → Nat → Option Nat
  | [], _ => none
  | (a, b) :: l, i => if a = i then some b else lookupPair l i

/--
The static data of one `DepthMap` instance: the canvas bounds of the
root element (only width and height are read) and the region forest
(`rootRegions` with their nested children), as produced by `init` and
after the external renderer has populated `absoluteBounds`.
-/
structure DMModel where
  canvasWidth : Rat
  canvasHeight : Rat
  forest : List RTree

/-- The parent region id of a region, recovered from the forest. -/
def parentOf (m : DMModel) (i : Nat) : Option Nat :=
  lookupPair (forestPairs m.forest) i

/--
The mutable state of a `DepthMap`: `expansionState` of each `Region`
object (`none` = the field was never written, as in TypeScript where it
starts `undefined`), `expansionState` of each element KNode, the
`criticalRegions` set (insertion-ordered list of region ids) and the
last recorded viewport.
-/
structure DMState where
  regExp : Nat → Option Bool
  elemExp : Nat → Option Bool
  critical : List Nat
  viewport : Option Viewport

/-- A freshly constructed `DepthMap` state: nothing written yet. -/
def freshState : DMState :=
  { regExp := fun _ => none, elemExp := fun _ => none, critical := [], viewport := none }

/-- Pointwise update of a finite map. -/
def upd (f : Nat → Option Bool) (i : Nat) (v : Option Bool) : Nat → Option Bool :=
  fun j => if j = i then v else f j

/-- JavaScript `Set.add` on an insertion-ordered list: append if absent. -/
def ordAdd (l : List Nat) (i : Nat) : List Nat :=
  if i ∈ l then l else l ++ [i]


/--
Addition of embedded numbers.  Equal to `Rat` addition
(`qadd_eq` below); phrased through `Rat.divInt` and integer arithmetic
so that concrete runs reduce inside the kernel.
-/
def qadd (a b : Rat) : Rat := Rat.divInt (a.num * b.den + b.num * a.den) (a.den * b.den)

/-- Subtraction of embedded numbers; equal to `Rat` subtraction (`qsub_eq`). -/
def qsub (a b : Rat) : Rat := Rat.divInt (a.num * b.den - b.num * a.den) (a.den * b.den)

/-- Division of embedded numbers; equal to `Rat` division (`qdiv_eq`). -/
def qdiv (a b : Rat) : Rat := Rat.divInt (a.num * b.den) (a.den * b.num)

/-- Constant `absoluteVisibilityBuffer` of `DepthMap` (500). -/
def absoluteVisibilityBuffer : Rat := 500

/--
`DepthMap.isVisible`: if `absoluteBounds` is populated, intersect it
with the visible canvas rectangle enlarged by the visibility buffer;
otherwise assume visible.
-/
def isVisible (m : DMModel) (t : RTree) (viewport : Viewport) : Bool :=
  match t.absoluteBounds with
  | some b =>
    decide (qadd b.x b.width ≥ qsub viewport.scroll.1 absoluteVisibilityBuffer
      ∧ b.x ≤ qadd (qadd viewport.scroll.1 (qdiv m.canvasWidth viewport.zoom))
          absoluteVisibilityBuffer
      ∧ qadd b.y b.height ≥ qsub viewport.scroll.2 absoluteVisibilityBuffer
      ∧ b.y ≤ qadd (qadd viewport.scroll.2 (qdiv m.canvasHeight viewport.zoom))
          absoluteVisibilityBuffer)
  | none => true

/--
`DepthMap.sizeInViewport` applied to the region's bounding rectangle:
the larger of width / (canvas width / zoom) and
height / (canvas height / zoom), given the rectangle size `(w, h)`.
-/
def sizeInViewport (m : DMModel) (wh : Rat × Rat) (viewport : Viewport) : Rat :=
  let horizontal := qdiv wh.1 (qdiv m.canvasWidth viewport.zoom)
  let vertical := qdiv wh.2 (qdiv m.canvasHeight viewport.zoom)
  if horizontal > vertical then horizontal else vertical

/--
`DepthMap.getExpansionState`: collapsed when invisible; expanded when
there is no bounding rectangle; otherwise expanded iff the size in the
viewport reaches the threshold or the zoom reaches native resolution.
`true` is EXPANDED, `false` is COLLAPSED.
-/
def getExpansionState (m : DMModel) (t : RTree) (viewport : Viewport) (threshold : Rat) : Bool :=
  if !(isVisible m t viewport) then false
  else
    match t.br with
    | none => true
    | some wh =>
      if sizeInViewport m wh viewport ≥ threshold ∨ viewport.zoom ≥ 1 then true else false

/--
`Region.setExpansionState`: write the state to the `Region` object and
to every KNode in its `elements` list.
-/
def setExpSt (t : RTree) (b : Bool) (s : DMState) : DMState :=
  { s with
    regExp := upd s.regExp t.rid (some b)
    elemExp := t.elements.foldl (fun f e => upd f e (some b)) s.elemExp }

mutual
/--
`DepthMap.recursiveCollapseRegion`: set the region collapsed, remove it
from `criticalRegions`, and recurse into every child whose
`expansionState` is currently `=== EXPANDED`.
-/
def rc : RTree → DMState → DMState
  | .node i b a es cs, s =>
    let s1 := setExpSt (.node i b a es cs) false s
    rcChildren cs { s1 with critical := ordErase s1.critical i }

/-- The `children.forEach` loop of `recursiveCollapseRegion`. -/
def rcChildren : List RTree → DMState → DMState
  | [], s => s
  | c :: rest, s => rcChildren rest (if s.regExp c.rid = some true then rc c s else s)
end

mutual
/--
`DepthMap.searchUntilCollapse`: set the region expanded, then for each
child with a (truthy) bounding rectangle either record the region as
critical and collapse the child subtree (child tests COLLAPSED) or
descend (child tests EXPANDED).
-/
def sUC (m : DMModel) (vp : Viewport) (th : Rat) : RTree → DMState → DMState
  | .node i b a es cs, s =>
    sUCChildren m vp th i cs (setExpSt (.node i b a es cs) true s)
termination_by structural t => t

/-- The `children.forEach` loop of `searchUntilCollapse`. -/
def sUCChildren (m : DMModel) (vp : Viewport) (th : Rat) (pid : Nat) :
    List RTree → DMState → DMState
  | [], s => s
  | c :: rest, s =>
    let s' :=
      if c.br.isSome then
        if getExpansionState m c vp th = false then
          rc c { s with critical := ordAdd s.critical pid }
        else sUC m vp th c s
      else s
    sUCChildren m vp th pid rest s'
termination_by structural ts => ts
end

/--
One step of the `toBeProcessed.forEach` body of
`DepthMap.checkCriticalRegions`, acting on the accumulator
(state, nextToBeProcessed, childSet).  A region is collapsed when its
parent exists and is `== COLLAPSED` or its own test now fails; it is
then removed from the critical set, its parent (if any) is added to the
next frontier and the critical set, and all its children are
recursively collapsed.  Otherwise its children join the child set.
-/
def ccrProcessOne (m : DMModel) (vp : Viewport) (th : Rat)
    (acc : DMState × List Nat × List RTree) (i : Nat) : DMState × List Nat × List RTree :=
  let (s, nxt, cset) := acc
  match findTree? m.forest i with
  | none => (s, nxt, cset)
  | some t =>
    let parentCollapsed : Bool :=
      match parentOf m i with
      | some p => decide (s.regExp p = some false)
      | none => false
    if parentCollapsed || !(getExpansionState m t vp th) then
      let s1 := setExpSt t false s
      let s2 := { s1 with critical := ordErase s1.critical i }
      let (s3, nxt') :=
        match parentOf m i with
        | some p => ({ s2 with critical := ordAdd s2.critical p }, ordAdd nxt p)
        | none => (s2, nxt)
      let s4 := t.children.foldl (fun st c => rc c st) s3
      (s4, nxt', cset)
    else
      (s, nxt, t.children.foldl (fun cs c => if cs.any (fun d => d.rid = c.rid) then cs else cs ++ [c]) cset)

/--
The `while (toBeProcessed.size !== 0)` loop of `checkCriticalRegions`,
with explicit fuel (the loop climbs strictly towards the roots, so any
fuel beyond the forest depth is enough; `expandCollapse` passes the
region count plus one).
-/
def ccrLoop (m : DMModel) (vp : Viewport) (th : Rat) :
    Nat → List Nat → List RTree → DMState → DMState × List RTree
  | 0, _, cset, s => (s, cset)
  | _ + 1, [], cset, s => (s, cset)
  | fuel + 1, toBe, cset, s =>
    let (s', nxt, cset') := toBe.foldl (ccrProcessOne m vp th) (s, [], cset)
    ccrLoop m vp th fuel nxt cset' s'

/--
The `childSet.forEach` phase of `checkCriticalRegions`: every collected
child of a surviving region is re-tested; expanded children resume the
`searchUntilCollapse` descent, collapsed children mark their parent
critical and get their subtree collapsed.
-/
def ccrChildPhase (m : DMModel) (vp : Viewport) (th : Rat)
    (cs : List RTree) (s : DMState) : DMState :=
  cs.foldl
    (fun st c =>
      if getExpansionState m c vp th = true then sUC m vp th c st
      else
        let st1 :=
          match parentOf m c.rid with
          | some p => { st with critical := ordAdd st.critical p }
          | none => st
        rc c st1)
    s

/-- `DepthMap.checkCriticalRegions`: frontier loop followed by the child phase. -/
def checkCriticalRegions (m : DMModel) (vp : Viewport) (th : Rat) (s : DMState) : DMState :=
  let (s', cset) := ccrLoop m vp th ((subtreeIdsList m.forest).length + 1) s.critical [] s
  ccrChildPhase m vp th cset s'

/-- Default expand/collapse threshold (0.2) used when the option is absent. -/
def defaultThreshold : Rat := Rat.divInt 2 10

/-- Threshold drawn from the rendering options, defaulting to 0.2. -/
def thresholdOf (renderingOptions : Option Rat) : Rat :=
  match renderingOptions with
  | some v => v
  | none => defaultThreshold

/--
`DepthMap.expandCollapse`: skip when the recorded scroll object is the
passed one — reference equality, modelled by `scrollId` — and the zoom
number is equal; otherwise record the viewport (keeping the passed
scroll object) and either run the cold-start pass over `rootRegions`
(empty critical set) or the incremental pass.
-/
def expandCollapse (m : DMModel) (renderingOptions : Option Rat)
    (vp : Viewport) (s : DMState) : DMState :=
  if (match s.viewport with
      | some v => decide (v.scrollId = vp.scrollId) && decide (v.zoom = vp.zoom)
      | none => false) then s
  else
    let s1 := { s with viewport := some ⟨vp.scroll, vp.scrollId, vp.zoom⟩ }
    let th := thresholdOf renderingOptions
    if s1.critical.length = 0 then
      m.forest.foldl
        (fun st t => if getExpansionState m t vp th = true then sUC m vp th t st else st) s1
    else checkCriticalRegions m vp th s1

mutual
/--
Closed form of the region states written by the cold-start pass
(`searchUntilCollapse` from an all-unwritten state) on a subtree whose
root has already been reached: the root is EXPANDED; below it, states
follow the per-child expansion test until the first collapse.
-/
def coldVal (m : DMModel) (vp : Viewport) (th : Rat) : RTree → Nat → Option Bool
  | .node i _ _ _ cs, x =>
    if x = i then some true else coldValChildren m vp th cs x

/-- Closed form of the cold-start pass on a child list. -/
def coldValChildren (m : DMModel) (vp : Viewport) (th : Rat) : List RTree → Nat → Option Bool
  | [], _ => none
  | c :: rest, x =>
    if x ∈ subtreeIds c then
      (if c.br.isSome then
        (if getExpansionState m c vp th = false then
          (if x = c.rid then some false else none)
        else coldVal m vp th c x)
      else none)
    else coldValChildren m vp th rest x
end

mutual
/--
Closed form of the critical-region set produced by the cold-start pass
on a reached subtree: a region id is critical iff it lies on an
all-expanded path and one of its children (with a bounding rectangle)
tests COLLAPSED.
-/
def coldCrit (m : DMModel) (vp : Viewport) (th : Rat) : RTree → Nat → Bool
  | .node i _ _ _ cs, x =>
    if x = i then cs.any (fun c => c.br.isSome && !(getExpansionState m c vp th))
    else coldCritChildren m vp th cs x

/-- Closed form of the critical additions below a child list. -/
def coldCritChildren (m : DMModel) (vp : Viewport) (th : Rat) : List RTree → Nat → Bool
  | [], _ => false
  | c :: rest, x =>
    if x ∈ subtreeIds c then
      c.br.isSome && getExpansionState m c vp th && coldCrit m vp th c x
    else coldCritChildren m vp th rest x
end

/-- Closed form of the whole cold-start pass over the root regions. -/
def coldForestVal (m : DMModel) (vp : Viewport) (th : Rat) : List RTree → Nat → Option Bool
  | [], _ => none
  | t :: ts, x =>
    if x ∈ subtreeIds t then
      (if getExpansionState m t vp th = true then coldVal m vp th t x else none)
    else coldForestVal m vp th ts x

/-- Closed form of the critical set after the whole cold-start pass. -/
def coldForestCrit (m : DMModel) (vp : Viewport) (th : Rat) : List RTree → Nat → Bool
  | [], _ => false
  | t :: ts, x =>
    if x ∈ subtreeIds t then
      getExpansionState m t vp th && coldCrit m vp th t x
    else coldForestCrit m vp th ts x

/--
Spec-side size ratio, written from the specification text for the
refinement check of `getExpansionState`: the maximum of rendered width
over canvas width and rendered height over canvas height at the
current zoom.
-/
def specSizeRatio (m : DMModel) (wh : Rat × Rat) (viewport : Viewport) : Rat :=
  max (wh.1 * viewport.zoom / m.canvasWidth) (wh.2 * viewport.zoom / m.canvasHeight)

/-!
Concrete region forests used to exercise the incremental pass.  The
shape is one root region (id 1) with children ids 2 and 3, and region 2
having one child region with id 4; element ids are 101-104.  The
`absoluteBounds` (populated by the external renderer, which tracks
browser positions with error, so arbitrary rectangles are legitimate)
are chosen so that visibility under two viewports drives the expansion
tests.  All zooms are 1, so every visible region tests EXPANDED.
-/

/-- Region 4 (child of region 2), with a configurable absolute x position. -/
def trY (abx : Rat) : RTree :=
  .node 4 (some (1, 1)) (some ⟨abx, 0, 10, 10⟩) [104] []

/-- Region 2 (child of the root region), wide enough to stay visible. -/
def trR2 (abx : Rat) : RTree :=
  .node 2 (some (1, 1)) (some ⟨0, 0, 20000, 10⟩) [102] [trY abx]

/-- Region 3 (child of the root region), far off-screen (always collapsed). -/
def trX : RTree := .node 3 (some (1, 1)) (some ⟨-20000, 0, 10, 10⟩) [103] []

/-- The root region (id 1), visible only near scroll x = 0. -/
def trR1 (abx : Rat) : RTree :=
  .node 1 (some (1, 1)) (some ⟨0, 0, 10, 10⟩) [101] [trR2 abx, trX]

/-- Model for the orphaned-expansion run: region 4 sits at x = 10000. -/
def mOrphan : DMModel := ⟨100, 100, [trR1 10000]⟩

/-- Model for the collapsed-critical run: region 4 sits at x = 30000. -/
def mCollapsedCrit : DMModel := ⟨100, 100, [trR1 30000]⟩

/-- An isolated root region (id 5), far off-screen at every viewport used. -/
def trFar : RTree := .node 5 (some (1, 1)) (some ⟨-40000, 0, 10, 10⟩) [105] []

/-- Model with a visible root (id 1) and an off-screen root (id 5). -/
def mTwoRoots : DMModel := ⟨100, 100, [trR1 10000, trFar]⟩

/-- First viewport: scroll (0,0), zoom 1. -/
def vpA : Viewport := ⟨(0, 0), 1, 1⟩

/-- Second viewport: scroll (10000,0), zoom 1. -/
def vpB : Viewport := ⟨(10000, 0), 2, 1⟩

/-- A fresh scroll object with the same coordinates and zoom as `vpB`:
value-equal scroll and zoom, but a different object reference. -/
def vpB' : Viewport := ⟨(10000, 0), 3, 1⟩

/-!
Embedding of `keith-interactive/src/browser/layered/constraint-utils.ts`
(the drag-and-drop constraint resolver).  The data model (`Direction`,
`KNode`, `Layer`) lives in `constraint-classes.ts` / `constraint-types.ts`,
which are not part of this tree; those records are modelled from the
spec's data-model section (DiagramNode with `position`, `size`, a
`shadow` flag plus `shadowX`/`shadowY`, and the four layout properties,
`-1` meaning unconstrained).  Edge endpoints are stored as node ids and
dereferenced in the sibling list, mirroring the object references of
`KEdge.source`/`KEdge.target`.  JavaScript numbers are embedded as
rationals with the kernel-reducible `qadd`/`qsub`/`qdiv` operations.
-/

/-- Modelled from the spec: the layout direction enum of `constraint-classes.ts`. -/
inductive Direction where
  | UNDEFINED
  | RIGHT
  | LEFT
  | DOWN
  | UP
deriving DecidableEq

/-- Modelled from the spec: the `properties` record of a diagram node
(`layerId`, `positionId`, `layerConstraint`, `positionConstraint`,
all integers with `-1` meaning unconstrained). -/
structure NodeProperties where
  layerId : Int
  positionId : Int
  layerConstraint : Int
  positionConstraint : Int
deriving DecidableEq

/-- Modelled from the spec: a diagram node as consumed by the constraint
resolver.  `outgoingTargets` / `incomingSources` hold the ids of the
nodes at the far end of `outgoingEdges` / `incomingEdges`; `chainGroup`
tags nodes glued together by identical relative constraints (the
"chain" of the spec), `none` meaning the node is in no chain. -/
structure KNode where
  id : Nat
  position : Rat × Rat
  size : Rat × Rat
  shadow : Bool
  shadowX : Rat
  shadowY : Rat
  selected : Bool
  direction : Direction
  properties : NodeProperties
  outgoingTargets : List Nat
  incomingSources : List Nat
  chainGroup : Option Nat
deriving DecidableEq

/-- Modelled from the spec: the `Layer` record of `constraint-types.ts`.
`begin`/`end` are keywords in Lean, hence the underscores. -/
structure Layer where
  id : Int
  begin_ : Rat
  end_ : Rat
  mid : Rat
  topBorder : Rat
  bottomBorder : Rat
  direction : Direction
deriving DecidableEq

/-- The four actions `setProperty` can return. -/
inductive Action where
  | refreshDiagram
  | setLayerConstraint (id : Nat) (layer : Int) (layerCons : Int)
  | setStaticConstraint (id : Nat) (layer : Int) (layerCons : Int)
      (position : Int) (posCons : Int)
  | setPositionConstraint (id : Nat) (position : Int) (posCons : Int)
deriving DecidableEq

/-- Offset for placement below or above the first/last node in the layer. -/
def PLACEMENT_TOP_BOTTOM_OFFSET : Rat := 20

/-- Layer padding for the one-layer case. -/
def ONE_LAYER_PADDING : Rat := 10

/-- Kernel-reducible minimum on rationals (`Math.min`). -/
def qmin (a b : Rat) : Rat := if a ≤ b then a else b

/-- Kernel-reducible maximum on rationals (`Math.max`). -/
def qmax (a b : Rat) : Rat := if a ≤ b then b else a

/-- `Number.MAX_VALUE` (largest double, `2^1024 - 2^971`). -/
def jsMaxValue : Rat := Rat.divInt (Int.ofNat (2 ^ 1024 - 2 ^ 971)) 1

/-- `Number.MIN_VALUE` (smallest positive double, `2^-1074`). -/
def jsMinValue : Rat := Rat.divInt 1 (Int.ofNat (2 ^ 1074))

/-- Insert an element into a sorted list, before the first element it
compares `le` to (so that, with a non-strict comparison, an element
keeps its place relative to equal elements inserted earlier). -/
def ordInsert {α : Type} (le : α → α → Bool) (x : α) : List α → List α
  | [] => [x]
  | y :: ys => if le x y then x :: y :: ys else y :: ordInsert le x ys

/-- Stable sort by the comparison `le`; models JavaScript's
`Array.prototype.sort` with a numeric comparator (specified stable).
A stable sort by a total non-strict comparison is unique, so any
stable algorithm embeds the source faithfully. -/
def stableSort {α : Type} (le : α → α → Bool) : List α → List α
  | [] => []
  | x :: xs => ordInsert le x (stableSort le xs)

/-- `getNodesOfLayer`: the nodes whose `properties.layerId` equals
`layer`, in list order. -/
def getNodesOfLayer (layer : Int) (nodes : List KNode) : List KNode :=
  nodes.filter (fun n => decide (n.properties.layerId = layer))

/-- The coordinate of `node` along the layout axis used by
`getLayerOfNode`: the x-center for horizontal layouts (UNDEFINED,
RIGHT, LEFT), the y-center otherwise.  Reads `node.position`, not the
shadow coordinates. -/
def nodeAxisCoord (node : KNode) (direction : Direction) : Rat :=
  if direction = .UNDEFINED ∨ direction = .RIGHT ∨ direction = .LEFT then
    qadd node.position.1 (qdiv node.size.1 2)
  else
    qadd node.position.2 (qdiv node.size.2 2)

/-- The per-layer test of the `for (let layer of layers)` loop of
`getLayerOfNode`: `coordinate < layer.end` for the forward directions,
`coordinate > layer.end` for LEFT and UP.  There is no lower-bound
(`begin`) comparison in the source. -/
def layerEndTest (coord : Rat) (direction : Direction) (layer : Layer) : Bool :=
  decide ((coord < layer.end_ ∧
      (direction = .UNDEFINED ∨ direction = .RIGHT ∨ direction = .DOWN)) ∨
    (coord > layer.end_ ∧ (direction = .LEFT ∨ direction = .UP)))

/-- `getLayerOfNode`: return the id of the first layer passing
`layerEndTest`; otherwise the node belongs to the last layer if that
layer's sole occupant is selected, else to a new layer `lastId + 1`. -/
def getLayerOfNode (node : KNode) (nodes : List KNode) (layers : List Layer)
    (direction : Direction) : Int :=
  match layers.find? (layerEndTest (nodeAxisCoord node direction) direction) with
  | some layer => layer.id
  | none =>
    match layers.getLast? with
    | none => 0
    | some last =>
      match getNodesOfLayer last.id nodes with
      | [n] => if n.selected then last.id else last.id + 1
      | _ => last.id + 1

/-- `getActualLayer`: boost the candidate layer if some node at or left
of it carries a pinned layer constraint above its own layer id. -/
def getActualLayer (node : KNode) (nodes : List KNode) (layerCandidate : Int) : Int :=
  let layerConstraintLeftOfCandidate := nodes.filter (fun n =>
    decide (n.properties.layerId ≤ layerCandidate ∧
      n.properties.layerConstraint > n.properties.layerId))
  if layerConstraintLeftOfCandidate = [] then layerCandidate
  else
    let best := layerConstraintLeftOfCandidate.foldl
      (fun acc n =>
        if n.properties.layerConstraint > acc.2 then
          (some n, n.properties.layerConstraint)
        else acc)
      ((none : Option KNode), (-1 : Int))
    match best.1 with
    | some nodeWithMaxCons =>
      best.2 + (layerCandidate - nodeWithMaxCons.properties.layerId)
    | none => layerCandidate

/-- `getActualTargetIndex`: bump the candidate index past an upper
neighbour whose pinned position constraint exceeds its index.  On an
out-of-range index the source would dereference `undefined`; that case
is unreachable from `setProperty` and maps to the unchanged index. -/
def getActualTargetIndex (targetIndex : Int) (alreadyInLayer : Bool)
    (layerNodes : List KNode) : Int :=
  if targetIndex > 0 then
    let upperIndex := targetIndex - 1
    match layerNodes.get? upperIndex.toNat with
    | none => targetIndex
    | some upperNeighbor =>
      let posConsOfUpper := upperNeighbor.properties.positionConstraint
      if posConsOfUpper > upperIndex then
        if alreadyInLayer ∧ upperNeighbor.properties.positionId = targetIndex then
          posConsOfUpper
        else posConsOfUpper + 1
      else targetIndex
  else targetIndex

/-- The in-place `nodes.sort((a, b) => a.properties.layerId - b.properties.layerId)`
at the top of `getLayers`. -/
def sortByLayerId (nodes : List KNode) : List KNode :=
  stableSort (fun a b => decide (a.properties.layerId ≤ b.properties.layerId)) nodes

/-- The `switch (direction)` block of `getLayers` computing
`(currentBegin, currentEnd, currentTopBorder, currentBottomBorder)` for
one node; the only place in the resolver that consults the shadow
coordinates. -/
def currentCoords (direction : Direction) (node : KNode) : Rat × Rat × Rat × Rat :=
  match direction with
  | .UNDEFINED | .RIGHT =>
    let currentBegin := if node.shadow then node.shadowX else node.position.1
    let currentTopBorder := if node.shadow then node.shadowY else node.position.2
    (currentBegin, qadd currentBegin node.size.1,
      currentTopBorder, qadd currentTopBorder node.size.2)
  | .LEFT =>
    let currentEnd := if node.shadow then node.shadowX else node.position.1
    let currentTopBorder := if node.shadow then node.shadowY else node.position.2
    (qadd currentEnd node.size.1, currentEnd,
      currentTopBorder, qadd currentTopBorder node.size.2)
  | .DOWN =>
    let currentBegin := if node.shadow then node.shadowY else node.position.2
    let currentTopBorder := if node.shadow then node.shadowX else node.position.1
    (currentBegin, qadd currentBegin node.size.2,
      currentTopBorder, qadd currentTopBorder node.size.1)
  | .UP =>
    let currentEnd := if node.shadow then node.shadowY else node.position.2
    let currentTopBorder := if node.shadow then node.shadowX else node.position.1
    (qadd currentEnd node.size.2, currentEnd,
      currentTopBorder, qadd currentTopBorder node.size.1)

/-- The sentinel a layer's begin coordinate is reset to in `getLayers`. -/
def resetBegin (direction : Direction) : Rat :=
  if direction = .UNDEFINED ∨ direction = .RIGHT ∨ direction = .DOWN then
    jsMaxValue
  else jsMinValue

/-- The sentinel a layer's end coordinate is reset to in `getLayers`. -/
def resetEnd (direction : Direction) : Rat :=
  if direction = .UNDEFINED ∨ direction = .RIGHT ∨ direction = .DOWN then
    jsMinValue
  else jsMaxValue

/-- The `Layer` constructor call of `getLayers`:
`new Layer(layer, begin, end, begin + (end - begin) / 2, direction)`.
The constructor leaves the borders unset; they are assigned by the
post-processing below before they are ever read. -/
def mkLayer (id : Int) (beginC endC : Rat) (direction : Direction) : Layer :=
  { id := id, begin_ := beginC, end_ := endC,
    mid := qadd beginC (qdiv (qsub endC beginC) 2),
    topBorder := 0, bottomBorder := 0, direction := direction }

/-- The mutable locals of the main loop of `getLayers`. -/
structure GLState where
  layers : List Layer
  layer : Int
  beginCoordinate : Rat
  endCoordinate : Rat
  topBorder : Rat
  bottomBorder : Rat
deriving DecidableEq

/-- The body of `for (let node of nodes)` in `getLayers`: close the
current layer when the layer id changes, then fold the node's
coordinates into the running bounds. -/
def getLayersStep (direction : Direction) (st : GLState) (node : KNode) : GLState :=
  let st :=
    if node.properties.layerId ≠ st.layer then
      { st with
        layers := st.layers ++
          [mkLayer st.layer st.beginCoordinate st.endCoordinate direction],
        beginCoordinate := resetBegin direction,
        endCoordinate := resetEnd direction,
        layer := node.properties.layerId }
    else st
  match currentCoords direction node with
  | (currentBegin, currentEnd, currentTopBorder, currentBottomBorder) =>
    { st with
      beginCoordinate :=
        if direction = .UNDEFINED ∨ direction = .RIGHT ∨ direction = .DOWN then
          qmin currentBegin st.beginCoordinate
        else qmax currentBegin st.beginCoordinate,
      endCoordinate :=
        if direction = .UNDEFINED ∨ direction = .RIGHT ∨ direction = .DOWN then
          qmax currentEnd st.endCoordinate
        else qmin currentEnd st.endCoordinate,
      topBorder := qmin currentTopBorder st.topBorder,
      bottomBorder := qmax currentBottomBorder st.bottomBorder }

/-- The `for (let i = 0; i < layers.length - 1; i++)` loop of
`getLayers`: set each layer's end and its successor's begin to their
mid, and assign the borders of every layer but the last.  The
sequential mutation threads the updated begin into the next step, as
in the source. -/
def adjustPairs (topB botB : Rat) : Layer → List Layer → List Layer
  | l, [] => [l]
  | l, l2 :: rest =>
    let mid := qadd l.end_ (qdiv (qsub l2.begin_ l.end_) 2)
    { l with end_ := mid, topBorder := topB, bottomBorder := botB } ::
      adjustPairs topB botB { l2 with begin_ := mid } rest

/-- Apply `f` to the last element of a list. -/
def updateLast (f : Layer → Layer) : List Layer → List Layer
  | [] => []
  | [l] => [f l]
  | l :: l2 :: rest => l :: updateLast f (l2 :: rest)

/-- Everything in `getLayers` after the main loop: push the trailing
layer, offset the borders, adjust consecutive bounds, then either pad
the single layer or widen the first and last layers. -/
def getLayersFinish (direction : Direction) (st : GLState) : List Layer :=
  let layers := st.layers ++
    [mkLayer st.layer st.beginCoordinate st.endCoordinate direction]
  let topBorder := qsub st.topBorder PLACEMENT_TOP_BOTTOM_OFFSET
  let bottomBorder := qadd st.bottomBorder PLACEMENT_TOP_BOTTOM_OFFSET
  let layers :=
    match layers with
    | [] => []
    | l :: rest => adjustPairs topBorder bottomBorder l rest
  match layers with
  | [] => []
  | [firstLayer] =>
    if direction = .LEFT ∨ direction = .UP then
      [{ firstLayer with
          begin_ := qadd firstLayer.begin_ ONE_LAYER_PADDING,
          end_ := qsub firstLayer.end_ ONE_LAYER_PADDING,
          topBorder := topBorder, bottomBorder := bottomBorder }]
    else
      [{ firstLayer with
          begin_ := qsub firstLayer.begin_ ONE_LAYER_PADDING,
          end_ := qadd firstLayer.end_ ONE_LAYER_PADDING,
          topBorder := topBorder, bottomBorder := bottomBorder }]
  | firstLayer :: rest =>
    updateLast
      (fun last =>
        { last with
          end_ := qadd last.mid (qsub last.mid last.begin_),
          topBorder := topBorder, bottomBorder := bottomBorder })
      ({ firstLayer with
          begin_ := qsub firstLayer.mid (qsub firstLayer.end_ firstLayer.mid) } :: rest)

/-- `getLayers`: compute the layer list of a graph from the nodes'
layer ids and (shadow-aware) coordinates. -/
def getLayers (nodes : List KNode) (direction : Direction) : List Layer :=
  getLayersFinish direction
    ((sortByLayerId nodes).foldl (getLayersStep direction)
      { layers := [], layer := 0,
        beginCoordinate := resetBegin direction,
        endCoordinate := resetEnd direction,
        topBorder := jsMaxValue, bottomBorder := jsMinValue })

/-- The in-place cross-axis sort at the top of `getPositionInLayer`
(by `position.y` for horizontal layouts, by `position.x` for vertical);
reads the committed position, not the shadow coordinates. -/
def sortByCross (direction : Direction) (nodes : List KNode) : List KNode :=
  match direction with
  | .UNDEFINED | .LEFT | .RIGHT =>
    stableSort (fun a b => decide (a.position.2 ≤ b.position.2)) nodes
  | .UP | .DOWN =>
    stableSort (fun a b => decide (a.position.1 ≤ b.position.1)) nodes

/-- The first position of `target` in a list (`Array.prototype.indexOf`;
reference identity becomes structural equality of embedded nodes). -/
def idxOf (target : KNode) : List KNode → Option Nat
  | [] => none
  | n :: rest => if n = target then some 0 else (idxOf target rest).map (· + 1)

/-- The index of the first element satisfying `p` (the linear insertion
scan of `getPositionInLayer`). -/
def insertScanIdx (p : KNode → Bool) : List KNode → Option Nat
  | [] => none
  | n :: rest => if p n then some 0 else (insertScanIdx p rest).map (· + 1)

/-- `getPositionInLayer`: sort the layer's nodes along the cross axis;
if the target is present return its index, otherwise the index of the
first node whose cross coordinate strictly exceeds the target's,
otherwise the length of the list. -/
def getPositionInLayer (nodes : List KNode) (target : KNode)
    (direction : Direction) : Int :=
  let sorted := sortByCross direction nodes
  match idxOf target sorted with
  | some idx => (idx : Int)
  | none =>
    match direction with
    | .UNDEFINED | .LEFT | .RIGHT =>
      match insertScanIdx (fun n => decide (target.position.2 < n.position.2)) sorted with
      | some i => (i : Int)
      | none => (sorted.length : Int)
    | .UP | .DOWN =>
      match insertScanIdx (fun n => decide (target.position.1 < n.position.1)) sorted with
      | some i => (i : Int)
      | none => (sorted.length : Int)

/-- Modelled from the spec: `filterKNodes` of `helper-methods.ts` keeps
the KNode-typed children; sibling lists are already node-typed here. -/
def filterKNodes (nodes : List KNode) : List KNode := nodes

/-- Modelled from the spec: `getChain` of `relativeConstraint-utils.ts`
returns the nodes of the layer glued to `node` by identical relative
constraints; a node with no chain tag is its own chain. -/
def getChain (node : KNode) (layerNodes : List KNode) : List KNode :=
  match node.chainGroup with
  | none => [node]
  | some g => layerNodes.filter (fun n => decide (n.chainGroup = some g))

/-- Dereference a node id in the sibling list (an edge's `source` /
`target` object reference). -/
def lookupNode : List KNode → Nat → Option KNode
  | [], _ => none
  | n :: rest, i => if n.id = i then some n else lookupNode rest i

/-- The connected-node collection loop of `isLayerForbidden`: for every
node of the target's chain, the targets of its outgoing edges followed
by the sources of its incoming edges.  `siblings` stands for
`node.parent.children`. -/
def chainConnectedNodes (node : KNode) (siblings : List KNode) : List KNode :=
  let layerNodes := getNodesOfLayer node.properties.layerId (filterKNodes siblings)
  let chainNodes := getChain node layerNodes
  chainNodes.flatMap (fun n =>
    n.outgoingTargets.filterMap (lookupNode siblings) ++
      n.incomingSources.filterMap (lookupNode siblings))

/-- `isLayerForbidden`: some node connected to the target's chain
already sits in `layer` with a pinned (`!== -1`) layer constraint. -/
def isLayerForbidden (node : KNode) (layer : Int) (siblings : List KNode) : Bool :=
  (chainConnectedNodes node siblings).any (fun n =>
    decide (n.properties.layerId = layer) &&
      decide (n.properties.layerConstraint ≠ -1))

/-- `shouldOnlyLCBeSet`: the node is dropped above or below the
vertical span of the layers (read off the first layer's borders). -/
def shouldOnlyLCBeSet (node : KNode) (layers : List Layer)
    (direction : Direction) : Bool :=
  let coordinateToCheck :=
    if direction = .UNDEFINED ∨ direction = .RIGHT ∨ direction = .LEFT then
      node.position.2
    else node.position.1
  match layers with
  | [] => false
  | l :: _ =>
    decide (coordinateToCheck < l.topBorder) ||
      decide (coordinateToCheck > l.bottomBorder)

/-- `setProperty`: resolve the drop position of `targetNode` into an
action.  `getPositionInLayer` sorts its argument in place in the
source, so the subsequent `indexOf` and `getActualTargetIndex` read
the sorted layer list; `targetNode.parent.children` (used by
`isLayerForbidden`) is the sibling list `nodes`. -/
def setProperty (nodes : List KNode) (layers : List Layer)
    (targetNode : KNode) : Action :=
  let direction := targetNode.direction
  let layerOfTarget := getLayerOfNode targetNode nodes layers direction
  let nodesOfLayer := getNodesOfLayer layerOfTarget nodes
  let sortedNodesOfLayer := sortByCross direction nodesOfLayer
  let positionOfTarget := getPositionInLayer nodesOfLayer targetNode direction
  let newPositionCons := getActualTargetIndex positionOfTarget
    (idxOf targetNode sortedNodesOfLayer ≠ none) sortedNodesOfLayer
  let newLayerCons := getActualLayer targetNode nodes layerOfTarget
  let forbidden := isLayerForbidden targetNode newLayerCons nodes
  if forbidden then Action.refreshDiagram
  else if targetNode.properties.layerId ≠ layerOfTarget then
    if shouldOnlyLCBeSet targetNode layers direction then
      Action.setLayerConstraint targetNode.id layerOfTarget newLayerCons
    else
      Action.setStaticConstraint targetNode.id layerOfTarget newLayerCons
        positionOfTarget newPositionCons
  else if targetNode.properties.positionId ≠ positionOfTarget then
    Action.setPositionConstraint targetNode.id positionOfTarget newPositionCons
  else Action.refreshDiagram

/-- The coordinate the spec's words assign to the target: the center
along the layout axis evaluated at the shadow position when the node is
being dragged.  Used as the spec side of the refinement checks. -/
def shadowAxisCoord (node : KNode) (direction : Direction) : Rat :=
  if direction = .UNDEFINED ∨ direction = .RIGHT ∨ direction = .LEFT then
    qadd (if node.shadow then node.shadowX else node.position.1)
      (qdiv node.size.1 2)
  else
    qadd (if node.shadow then node.shadowY else node.position.2)
      (qdiv node.size.2 2)

/-- Spec-side definition following the claim's words: `getLayerOfNode`
with the target evaluated at its transient shadow position. -/
def getLayerOfNodeShadowAware (node : KNode) (nodes : List KNode)
    (layers : List Layer) (direction : Direction) : Int :=
  match layers.find? (layerEndTest (shadowAxisCoord node direction) direction) with
  | some layer => layer.id
  | none =>
    match layers.getLast? with
    | none => 0
    | some last =>
      match getNodesOfLayer last.id nodes with
      | [n] => if n.selected then last.id else last.id + 1
      | _ => last.id + 1

/-- Spec-side containment test following the claim's words: the layer's
direction-aware half-open `[begin, end)` interval contains the
coordinate. -/
def layerContainTest (coord : Rat) (direction : Direction) (layer : Layer) : Bool :=
  if direction = .LEFT ∨ direction = .UP then
    decide (layer.end_ < coord ∧ coord ≤ layer.begin_)
  else
    decide (layer.begin_ ≤ coord ∧ coord < layer.end_)

/-- Spec-side definition following the claim's words: the first layer
whose interval contains the coordinate; if none does, the last layer's
id when the target is its sole occupant, else a fresh last id. -/
def getLayerOfNodeContainment (node : KNode) (nodes : List KNode)
    (layers : List Layer) (direction : Direction) : Int :=
  match layers.find? (layerContainTest (nodeAxisCoord node direction) direction) with
  | some layer => layer.id
  | none =>
    match layers.getLast? with
    | none => 0
    | some last =>
      match getNodesOfLayer last.id nodes with
      | [n] => if n = node then last.id else last.id + 1
      | _ => last.id + 1

/-- Commit a dragged node: move it to its shadow position and drop the
shadow flag.  Nodes not being dragged are unchanged. -/
def commitShadow (n : KNode) : KNode :=
  if n.shadow then
    { n with position := (n.shadowX, n.shadowY), shadow := false }
  else n

/-- Erase the shadow fields of a node, keeping its committed position. -/
def clearShadow (n : KNode) : KNode :=
  { n with shadow := false, shadowX := 0, shadowY := 0 }

/-!
Embedding of `DepthMap.getInstance` / `init` / `initHelper` /
`addRegionToMap` (`src/src/depth-map.ts`), for the failure-handling
claim.  The input is the model root's child list; a node's rendering
data is `none` when the `data` field is missing (so that
`child.data.length` throws a TypeError), and otherwise records whether
the first entry is a `K_RECTANGLE` with a (truthy) first child.
Regions are identified by the id of their bounding rectangle, which is
what `addRegionToMap` keys the region map on.  Throwing is modelled by
`Except`, with the error carrying the object state at the moment of
the throw, since the mutations made before it persist on the instance.
-/

/-- The one piece of a node's rendering data the region builder reads:
whether the first data entry is a rectangle and has a first child. -/
structure RData where
  isRect : Bool
  hasChild : Bool
deriving DecidableEq

/-- A model node as consumed by `init`: id, optional rendering data
(`none` = the `data` field is missing) and children. -/
inductive SNode where
  | node (id : Nat) (data : Option (List RData)) (children : List SNode)

/-- The id of a model node. -/
def SNode.nid : SNode → Nat
  | .node i _ _ => i

/-- The mutable region state of a DepthMap under construction:
`rootRegions` (ids of root regions in push order), `regionMap`
(bounding-rectangle id to region id), `regionChildren` (parent/child
region pairs from `region.children.add`), and `elements`
(region id / element id pairs from `region.elements.push`). -/
structure InitState where
  rootRegions : List Nat
  regionMap : List (Nat × Nat)
  regionChildren : List (Nat × Nat)
  elements : List (Nat × Nat)
deriving DecidableEq

/-- The state the private constructor installs: everything empty. -/
def freshInit : InitState := ⟨[], [], [], []⟩

/-- `Map.set`: overwrite the value at an existing key in place, else
append the binding. -/
def mapSet : List (Nat × Nat) → Nat → Nat → List (Nat × Nat)
  | [], k, v => [(k, v)]
  | (k', v') :: rest, k, v =>
    if k' = k then (k, v) :: rest else (k', v') :: mapSet rest k v

mutual
/-- `DepthMap.initHelper`: walk the node's children. -/
def initHelper : SNode → Nat → InitState → Except InitState InitState
  | .node _ _ children, region, s => initChildren children region s
termination_by structural t => t

/-- The `for (let child of node.children)` loop of `initHelper`.  Each
child is first pushed as an element of the current region; then its
`data` field is read — a missing field throws — and a rectangle with a
child starts a new region (registered as a child of the current one
and in the region map) while any other child is walked in the current
region. -/
def initChildren : List SNode → Nat → InitState → Except InitState InitState
  | [], _, s => .ok s
  | child :: rest, region, s =>
    match child with
    | .node cid cdata _ =>
      let s1 := { s with elements := s.elements ++ [(region, cid)] }
      match cdata with
      | none => .error s1
      | some ds =>
        if (match ds with | d :: _ => d.isRect && d.hasChild | [] => false) then
          let s2 := { s1 with
            regionChildren := s1.regionChildren ++ [(region, cid)],
            regionMap := mapSet s1.regionMap cid cid }
          match initHelper child cid s2 with
          | .error sE => .error sE
          | .ok sOk => initChildren rest region sOk
        else
          match initHelper child region s1 with
          | .error sE => .error sE
          | .ok sOk => initChildren rest region sOk
termination_by structural ts => ts
end

/-- `DepthMap.init`: every root child becomes a root region (pushed and
registered in the map) and its subtree is walked. -/
def initList : List SNode → InitState → Except InitState InitState
  | [], s => .ok s
  | child :: rest, s =>
    match child with
    | .node cid _ _ =>
      let s1 := { s with
        rootRegions := s.rootRegions ++ [cid],
        regionMap := mapSet s.regionMap cid cid }
      match initHelper child cid s1 with
      | .error sE => .error sE
      | .ok sOk => initList rest sOk

/-- `DepthMap.getInstance` on a model switch: construct a fresh
instance, run `init` inside `try`, and on a throw log and keep the
instance as it is — every mutation made before the throw survives. -/
def getInstance (rootChildren : List SNode) : InitState :=
  match initList rootChildren freshInit with
  | .ok s => s
  | .error s => s

/-!
Concrete fixtures for the constraint-resolver and init claims: the
spec's three RIGHT-direction layers with bounds [0,100) [100,220)
[220,300), a handful of nodes around them, and a two-root model whose
second root has a malformed grandchild.
-/

/-- Layer 0, bounds [0, 100). -/
def cL0 : Layer := ⟨0, 0, 100, 50, -100, 1000, .RIGHT⟩

/-- Layer 1, bounds [100, 220). -/
def cL1 : Layer := ⟨1, 100, 220, 160, -100, 1000, .RIGHT⟩

/-- Layer 2, bounds [220, 300). -/
def cL2 : Layer := ⟨2, 220, 300, 260, -100, 1000, .RIGHT⟩

/-- The spec's three-layer fixture. -/
def cLayers : List Layer := [cL0, cL1, cL2]

/-- A node whose x-center is 150 (inside layer 1). -/
def s150 : KNode :=
  { id := 30, position := (140, 0), size := (20, 10), shadow := false,
    shadowX := 0, shadowY := 0, selected := true, direction := .RIGHT,
    properties := ⟨1, 0, -1, -1⟩, outgoingTargets := [], incomingSources := [],
    chainGroup := none }

/-- A node whose x-center is -50, left of every layer. -/
def cnLeft : KNode :=
  { id := 31, position := (-60, 0), size := (20, 10), shadow := false,
    shadowX := 0, shadowY := 0, selected := false, direction := .RIGHT,
    properties := ⟨0, 0, -1, -1⟩, outgoingTargets := [], incomingSources := [],
    chainGroup := none }

/-- A dragged node: committed x-center 50 (layer 0), shadow x-center
150 (layer 1). -/
def cnShadow : KNode :=
  { id := 32, position := (40, 0), size := (20, 10), shadow := true,
    shadowX := 140, shadowY := 0, selected := true, direction := .RIGHT,
    properties := ⟨0, 0, -1, -1⟩, outgoingTargets := [], incomingSources := [],
    chainGroup := none }

/-- A stationary unconstrained node at the origin. -/
def cnOther : KNode :=
  { id := 33, position := (0, 0), size := (10, 10), shadow := false,
    shadowX := 0, shadowY := 0, selected := false, direction := .RIGHT,
    properties := ⟨0, 0, -1, -1⟩, outgoingTargets := [], incomingSources := [],
    chainGroup := none }

/-- A node dropped at exactly its committed layer (0) and position (0). -/
def n7 : KNode :=
  { id := 10, position := (10, 0), size := (10, 10), shadow := false,
    shadowX := 0, shadowY := 0, selected := true, direction := .RIGHT,
    properties := ⟨0, 0, -1, -1⟩, outgoingTargets := [], incomingSources := [],
    chainGroup := none }

/-- Node A of the forbidden-layer scenario: dragged so that its
x-center 235 falls into layer 2, with an edge A → B. -/
def nA : KNode :=
  { id := 20, position := (230, 0), size := (10, 10), shadow := false,
    shadowX := 0, shadowY := 0, selected := true, direction := .RIGHT,
    properties := ⟨0, 0, -1, -1⟩, outgoingTargets := [21], incomingSources := [],
    chainGroup := none }

/-- Node B of the forbidden-layer scenario: pinned into layer 2 by a
layer constraint of 2. -/
def nB : KNode :=
  { id := 21, position := (230, 50), size := (10, 10), shadow := false,
    shadowX := 0, shadowY := 0, selected := false, direction := .RIGHT,
    properties := ⟨2, 0, 2, -1⟩, outgoingTargets := [], incomingSources := [20],
    chainGroup := none }

/-- A well-formed leaf root child. -/
def snA : SNode := .node 1 (some []) []

/-- A malformed node: the `data` field is missing. -/
def snBad : SNode := .node 3 none []

/-- A root child whose only child is malformed. -/
def snB : SNode := .node 2 (some []) [snBad]

/-- Root children: a good region followed by one whose subtree walk
throws. -/
def cRoots : List SNode := [snA, snB]

/-- The state at the moment `init` throws on `cRoots`: both root
regions already pushed and registered, the malformed child already
recorded as an element. -/
def cPartial : InitState := ⟨[1, 2], [(1, 1), (2, 2)], [], [(2, 3)]⟩

/-!  Supporting lemmas. -/

/-- The embedded addition is rational addition. -/
theorem qadd_eq (a b : Rat) : qadd a b = a + b := by
  have ha : (a.den : Rat) ≠ 0 := by
    exact_mod_cast a.den_nz
  have hb : (b.den : Rat) ≠ 0 := by
    exact_mod_cast b.den_nz
  rw [qadd, Rat.divInt_eq_div]
  push_cast
  conv_rhs => rw [← Rat.num_div_den a, ← Rat.num_div_den b]
  rw [div_add_div _ _ ha hb]
  ring_nf

/-- The embedded subtraction is rational subtraction. -/
theorem qsub_eq (a b : Rat) : qsub a b = a - b := by
  have ha : (a.den : Rat) ≠ 0 := by
    exact_mod_cast a.den_nz
  have hb : (b.den : Rat) ≠ 0 := by
    exact_mod_cast b.den_nz
  rw [qsub, Rat.divInt_eq_div]
  push_cast
  conv_rhs => rw [← Rat.num_div_den a, ← Rat.num_div_den b]
  rw [div_sub_div _ _ ha hb]
  ring_nf

/-- The embedded division is rational division. -/
theorem qdiv_eq (a b : Rat) : qdiv a b = a / b := by
  rw [qdiv, Rat.divInt_eq_div]
  push_cast
  conv_rhs => rw [← Rat.num_div_den a, ← Rat.num_div_den b]
  rw [div_div_eq_mul_div, div_mul_eq_mul_div, div_div]

/-- Folding a state-transformer that preserves a predicate preserves it. -/
theorem foldl_pres {α β : Type} (f : β → α → β) (P : β → Prop)
    (h : ∀ b a, P b → P (f b a)) :
    ∀ (l : List α) (b : β), P b → P (l.foldl f b)
  | [], _, hb => hb
  | a :: l, b, hb => foldl_pres f P h l (f b a) (h b a hb)

/-- The size test of `sizeInViewport` computes the spec-side ratio. -/
theorem sizeInViewport_eq_specRatio (m : DMModel) (wh : Rat × Rat) (vp : Viewport) :
    sizeInViewport m wh vp = specSizeRatio m wh vp := by
  rw [sizeInViewport, specSizeRatio]
  rw [qdiv_eq, qdiv_eq, qdiv_eq, qdiv_eq]
  rw [div_div_eq_mul_div, div_div_eq_mul_div]
  by_cases h : wh.1 * vp.zoom / m.canvasWidth > wh.2 * vp.zoom / m.canvasHeight
  · rw [if_pos h, max_eq_left h.le]
  · rw [if_neg h, max_eq_right (not_lt.mp h)]

/--
Claim C5: `getExpansionState` returns COLLAPSED for invisible regions;
otherwise EXPANDED when there is no bounding rectangle; otherwise
EXPANDED iff the spec-side size ratio (max of rendered width over
canvas width and rendered height over canvas height at the current
zoom) reaches the threshold or the zoom reaches 1 — so every visible
region at zoom 1.0 evaluates EXPANDED regardless of the threshold, and
the default threshold is 0.2.
-/
theorem getExpansionState_characterization (m : DMModel) (t : RTree)
    (vp : Viewport) (th : Rat) :
    (isVisible m t vp = false → getExpansionState m t vp th = false)
    ∧ (isVisible m t vp = true → t.br = none → getExpansionState m t vp th = true)
    ∧ (∀ wh, isVisible m t vp = true → t.br = some wh →
        (getExpansionState m t vp th = true ↔ specSizeRatio m wh vp ≥ th ∨ vp.zoom ≥ 1))
    ∧ (isVisible m t vp = true → vp.zoom = 1 → getExpansionState m t vp th = true)
    ∧ thresholdOf none = 2 / 10 := by
  refine ⟨?_, ?_, ?_, ?_, ?_⟩
  · intro h
    simp [getExpansionState, h]
  · intro hv hbr
    simp [getExpansionState, hv, hbr]
  · intro wh hv hbr
    rw [getExpansionState, hv, hbr]
    show (if sizeInViewport m wh vp ≥ th ∨ vp.zoom ≥ 1 then true else false) = true
      ↔ specSizeRatio m wh vp ≥ th ∨ vp.zoom ≥ 1
    rw [sizeInViewport_eq_specRatio]
    by_cases hP : specSizeRatio m wh vp ≥ th ∨ vp.zoom ≥ 1
    · rw [if_pos hP]
      simp [hP]
    · rw [if_neg hP]
      simp [hP]
  · intro hv hz
    cases hbr : t.br with
    | none => simp [getExpansionState, hv, hbr]
    | some wh =>
      rw [getExpansionState, hv, hbr]
      show (if sizeInViewport m wh vp ≥ th ∨ vp.zoom ≥ 1 then true else false) = true
      rw [if_pos (Or.inr (le_of_eq hz.symm))]
  · rw [thresholdOf, defaultThreshold, Rat.divInt_eq_div]
    norm_num

/--
Witness for claim C5 at a concrete input: the root region of `mOrphan`
is visible at `vpA` (zoom 1), so even with threshold 7 it evaluates
EXPANDED via the native-resolution disjunct.
-/
theorem getExpansionState_characterization_witness :
    getExpansionState mOrphan (trR1 10000) vpA 7 = true :=
  (getExpansionState_characterization mOrphan (trR1 10000) vpA 7).2.2.2.1
    (by decide) rfl

/-- Writing an expansion state never touches the recorded viewport. -/
theorem setExpSt_viewport (t : RTree) (b : Bool) (s : DMState) :
    (setExpSt t b s).viewport = s.viewport := rfl

mutual
/-- `recursiveCollapseRegion` never touches the recorded viewport. -/
theorem rc_viewport : ∀ (t : RTree) (s : DMState), (rc t s).viewport = s.viewport
  | .node i b a es cs, s => by
    simp only [rc]
    rw [rcChildren_viewport cs]
    rfl

/-- The child loop of `recursiveCollapseRegion` never touches the viewport. -/
theorem rcChildren_viewport : ∀ (ts : List RTree) (s : DMState),
    (rcChildren ts s).viewport = s.viewport
  | [], s => by simp only [rcChildren]
  | c :: rest, s => by
    simp only [rcChildren]
    rw [rcChildren_viewport rest]
    split
    · exact rc_viewport c s
    · rfl
end

mutual
/-- `searchUntilCollapse` never touches the recorded viewport. -/
theorem sUC_viewport (m : DMModel) (vp : Viewport) (th : Rat) :
    ∀ (t : RTree) (s : DMState), (sUC m vp th t s).viewport = s.viewport
  | .node i b a es cs, s => by
    simp only [sUC]
    rw [sUCChildren_viewport m vp th i cs]
    rfl

/-- The child loop of `searchUntilCollapse` never touches the viewport. -/
theorem sUCChildren_viewport (m : DMModel) (vp : Viewport) (th : Rat) (pid : Nat) :
    ∀ (ts : List RTree) (s : DMState), (sUCChildren m vp th pid ts s).viewport = s.viewport
  | [], s => by simp only [sUCChildren]
  | c :: rest, s => by
    simp only [sUCChildren]
    rw [sUCChildren_viewport m vp th pid rest]
    split
    · split
      · exact rc_viewport c _
      · exact sUC_viewport m vp th c s
    · rfl
end

/-- Folding `recursiveCollapseRegion` over children keeps the viewport. -/
theorem foldl_rc_viewport : ∀ (l : List RTree) (s : DMState),
    (l.foldl (fun st c => rc c st) s).viewport = s.viewport
  | [], s => rfl
  | c :: l, s => by
    rw [List.foldl_cons, foldl_rc_viewport l, rc_viewport]

/-- One step of the critical-region loop never touches the viewport. -/
theorem ccrProcessOne_viewport (m : DMModel) (vp : Viewport) (th : Rat)
    (acc : DMState × List Nat × List RTree) (i : Nat) :
    (ccrProcessOne m vp th acc i).1.viewport = acc.1.viewport := by
  obtain ⟨s, nxt, cset⟩ := acc
  simp only [ccrProcessOne]
  cases findTree? m.forest i with
  | none => rfl
  | some t =>
    simp only
    split
    · cases hp : parentOf m i with
      | none => simp only [hp]; rw [foldl_rc_viewport]; rfl
      | some p => simp only [hp]; rw [foldl_rc_viewport]; rfl
    · rfl

/-- Folding the loop step over the frontier keeps the viewport. -/
theorem foldl_ccrProcessOne_viewport (m : DMModel) (vp : Viewport) (th : Rat) :
    ∀ (l : List Nat) (acc : DMState × List Nat × List RTree),
    (l.foldl (ccrProcessOne m vp th) acc).1.viewport = acc.1.viewport
  | [], _ => rfl
  | i :: l, acc => by
    rw [List.foldl_cons, foldl_ccrProcessOne_viewport m vp th l, ccrProcessOne_viewport]

/-- The critical-region while loop never touches the viewport. -/
theorem ccrLoop_viewport (m : DMModel) (vp : Viewport) (th : Rat) :
    ∀ (fuel : Nat) (toBe : List Nat) (cset : List RTree) (s : DMState),
    (ccrLoop m vp th fuel toBe cset s).1.viewport = s.viewport := by
  intro fuel
  induction fuel with
  | zero => intro toBe cset s; rfl
  | succ n ih =>
    intro toBe cset s
    match toBe with
    | [] => rfl
    | i :: rest =>
      simp only [ccrLoop]
      rw [ih]
      exact foldl_ccrProcessOne_viewport m vp th (i :: rest) (s, [], cset)

/-- The child phase of `checkCriticalRegions` never touches the viewport. -/
theorem ccrChildPhase_viewport (m : DMModel) (vp : Viewport) (th : Rat) :
    ∀ (cs : List RTree) (s : DMState), (ccrChildPhase m vp th cs s).viewport = s.viewport
  | [], s => rfl
  | c :: rest, s => by
    show (ccrChildPhase m vp th rest _).viewport = s.viewport
    rw [ccrChildPhase_viewport m vp th rest]
    dsimp only
    split
    · rw [sUC_viewport]
    · rw [rc_viewport]
      cases parentOf m c.rid <;> rfl

/-- `checkCriticalRegions` never touches the recorded viewport. -/
theorem checkCriticalRegions_viewport (m : DMModel) (vp : Viewport) (th : Rat) (s : DMState) :
    (checkCriticalRegions m vp th s).viewport = s.viewport := by
  simp only [checkCriticalRegions]
  rw [ccrChildPhase_viewport, ccrLoop_viewport]

/-- Folding the cold-start pass over the roots keeps the viewport. -/
theorem foldl_cold_viewport (m : DMModel) (vp : Viewport) (th : Rat) :
    ∀ (l : List RTree) (s : DMState),
    (l.foldl (fun st t => if getExpansionState m t vp th = true then sUC m vp th t st else st)
      s).viewport = s.viewport
  | [], s => rfl
  | t :: l, s => by
    rw [List.foldl_cons, foldl_cold_viewport m vp th l]
    split
    · rw [sUC_viewport]
    · rfl

/-- After any `expandCollapse` call the recorded viewport carries the
passed scroll object and zoom (on the skip branch the recorded one
already did). -/
theorem expandCollapse_viewport (m : DMModel) (opts : Option Rat) (vp : Viewport) (s : DMState) :
    ∃ v, (expandCollapse m opts vp s).viewport = some v
      ∧ v.scrollId = vp.scrollId ∧ v.zoom = vp.zoom := by
  simp only [expandCollapse]
  split
  · rename_i h
    cases hv : s.viewport with
    | none => rw [hv] at h; simp at h
    | some v =>
      rw [hv] at h
      simp only [Bool.and_eq_true, decide_eq_true_eq] at h
      exact ⟨v, rfl, h.1, h.2⟩
  · split
    · refine ⟨⟨vp.scroll, vp.scrollId, vp.zoom⟩, ?_, rfl, rfl⟩
      rw [foldl_cold_viewport]
    · refine ⟨⟨vp.scroll, vp.scrollId, vp.zoom⟩, ?_, rfl, rfl⟩
      rw [checkCriticalRegions_viewport]

/-- If the recorded viewport holds the passed scroll object (the same
reference) and an equal zoom, the call is skipped. -/
theorem expandCollapse_skip (m : DMModel) (opts : Option Rat) (vp : Viewport) (s : DMState)
    (v : Viewport) (h : s.viewport = some v)
    (hid : v.scrollId = vp.scrollId) (hz : v.zoom = vp.zoom) :
    expandCollapse m opts vp s = s := by
  simp only [expandCollapse, h, hid, hz]
  simp

/--
Claim C1 counterexample: value-equality of the viewport does not
trigger the skip rule — the source compares the scroll object by
reference.  On `mCollapsedCrit`, after calls at `vpA` then `vpB`,
`criticalRegions` is exactly {2}; a third call passing a fresh scroll
object with the same coordinates and the same zoom as `vpB` is not
skipped, and the incremental pass empties `criticalRegions` — the
state changes although scroll x/y and zoom equal those of the
immediately preceding call.
-/
theorem state_changes_on_value_equal_fresh_scroll :
    vpB'.scroll = vpB.scroll ∧ vpB'.zoom = vpB.zoom
      ∧ (expandCollapse mCollapsedCrit none vpB
          (expandCollapse mCollapsedCrit none vpA freshState)).critical = [2]
      ∧ (expandCollapse mCollapsedCrit none vpB'
          (expandCollapse mCollapsedCrit none vpB
            (expandCollapse mCollapsedCrit none vpA freshState))).critical = [] := by
  decide

/--
Claim C1 (corrected): the skip rule compares the scroll by object
reference, not by value.  A second `expandCollapse` call whose
viewport carries the same scroll object as the immediately preceding
call (and an equal zoom) changes nothing: no Region `expansionState`,
no element `expansionState`, not `criticalRegions` — the whole state,
recorded viewport included, is returned unchanged.  A value-equal but
fresh scroll object does not skip and can change the state.
-/
theorem expandCollapse_idempotent_on_same_scroll_object
    (m : DMModel) (opts : Option Rat) (vp vp' : Viewport) (s : DMState)
    (hid : vp'.scrollId = vp.scrollId) (hz : vp'.zoom = vp.zoom) :
    expandCollapse m opts vp' (expandCollapse m opts vp s)
      = expandCollapse m opts vp s := by
  obtain ⟨v, hv, hvid, hvz⟩ := expandCollapse_viewport m opts vp s
  exact expandCollapse_skip m opts vp' _ v hv (by rw [hvid, hid]) (by rw [hvz, hz])

/--
Witness for claim C1: repeating a call with the very same viewport
(same scroll object, same zoom) returns the state unchanged.
-/
theorem expandCollapse_idempotent_on_same_scroll_object_witness :
    expandCollapse mOrphan none vpA (expandCollapse mOrphan none vpA freshState)
      = expandCollapse mOrphan none vpA freshState :=
  expandCollapse_idempotent_on_same_scroll_object mOrphan none vpA vpA freshState
    rfl rfl

/--
Claim C2 counterexample: on the concrete model `mOrphan`, after a first
`expandCollapse` at viewport `vpA` (from a fresh DepthMap) and a second
completed call at viewport `vpB`, region 4 is EXPANDED while its parent
region 2 is COLLAPSED — an orphaned expansion, refuting the claimed
invariant.  (During the incremental pass region 2 survives its own
check first, queueing region 4 in the child set; the root region 1 then
collapses, recursively collapsing region 2; the child phase re-tests
region 4, finds it EXPANDED and re-expands it under its now collapsed
parent.)
-/
theorem orphanedExpansion_after_incremental_call :
    (expandCollapse mOrphan none vpB (expandCollapse mOrphan none vpA freshState)).regExp 4
        = some true
      ∧ (expandCollapse mOrphan none vpB (expandCollapse mOrphan none vpA freshState)).regExp 2
        = some false
      ∧ parentOf mOrphan 4 = some 2 := by
  decide

/--
Claim C3 counterexample: on the concrete model `mCollapsedCrit`, after
a first `expandCollapse` at viewport `vpA` (from a fresh DepthMap) and
a second completed call at viewport `vpB`, region 2 is COLLAPSED yet is
a member of `criticalRegions`, refuting "no Region whose
`expansionState` is COLLAPSED is ever in `criticalRegions`".  (Region 2
survives its own check, queueing its child 4; the root then collapses,
recursively collapsing region 2; the child phase finds child 4
COLLAPSED and re-adds its parent 2 — already collapsed — to the
critical set.)
-/
theorem collapsed_region_in_criticalRegions :
    2 ∈ (expandCollapse mCollapsedCrit none vpB
          (expandCollapse mCollapsedCrit none vpA freshState)).critical
      ∧ (expandCollapse mCollapsedCrit none vpB
          (expandCollapse mCollapsedCrit none vpA freshState)).regExp 2 = some false := by
  decide

/-!  Characterisation of the cold-start pass from a fresh state. -/

/-- Membership in a JavaScript-set `add`. -/
theorem ordAdd_mem (l : List Nat) (i x : Nat) : x ∈ ordAdd l i ↔ x ∈ l ∨ x = i := by
  rw [ordAdd]
  split
  · rename_i h
    constructor
    · exact Or.inl
    · rintro (hx | rfl) <;> [exact hx; exact h]
  · simp [List.mem_append]

/-- Deleting an absent element of a JavaScript set is a no-op. -/
theorem ordErase_not_mem : ∀ (l : List Nat) (i : Nat), i ∉ l → ordErase l i = l
  | [], _, _ => rfl
  | j :: l, i, h => by
    rw [ordErase]
    rw [if_neg (by intro hj; exact h (hj ▸ List.mem_cons_self j l))]
    rw [ordErase_not_mem l i (fun hi => h (List.mem_cons_of_mem j hi))]

/-- Effect of `setExpansionState` on a region state. -/
theorem setExpSt_regExp (t : RTree) (b : Bool) (s : DMState) (x : Nat) :
    (setExpSt t b s).regExp x = if x = t.rid then some b else s.regExp x := rfl

/-- `setExpansionState` does not touch the critical set. -/
theorem setExpSt_critical (t : RTree) (b : Bool) (s : DMState) :
    (setExpSt t b s).critical = s.critical := rfl

/-- The collapse loop is the identity when no listed child is expanded. -/
theorem rcChildren_id : ∀ (ts : List RTree) (s : DMState),
    (∀ c ∈ ts, s.regExp c.rid ≠ some true) → rcChildren ts s = s
  | [], s, _ => by rw [rcChildren]
  | c :: rest, s, h => by
    rw [rcChildren]
    rw [if_neg (h c (List.mem_cons_self c rest))]
    exact rcChildren_id rest s (fun d hd => h d (List.mem_cons_of_mem c hd))

/--
Closed form of `recursiveCollapseRegion` when no immediate child is
currently expanded: only the region itself is written and removed from
the critical set.
-/
theorem rc_closed (t : RTree) (s : DMState)
    (h : ∀ c ∈ t.children, s.regExp c.rid ≠ some true) (ht : t.rid ∉ s.critical) :
    rc t s = setExpSt t false s := by
  obtain ⟨i, b, a, es, cs⟩ := t
  simp only [RTree.rid, RTree.children] at h ht
  rw [rc]
  have hcrit : ordErase (setExpSt (RTree.node i b a es cs) false s).critical i
      = (setExpSt (RTree.node i b a es cs) false s).critical := by
    rw [setExpSt_critical]
    exact ordErase_not_mem _ _ ht
  rw [hcrit]
  have h' : ∀ c ∈ cs, (setExpSt (RTree.node i b a es cs) false s).regExp c.rid ≠ some true := by
    intro c hc
    simp only [setExpSt, upd, RTree.rid, RTree.elements]
    split
    · simp
    · exact h c hc
  rw [rcChildren_id cs _ h']

/-- A cold value below a list of children is `none` outside their ids. -/
theorem coldValChildren_not_mem (m : DMModel) (vp : Viewport) (th : Rat) :
    ∀ (ts : List RTree) (x : Nat), x ∉ subtreeIdsList ts → coldValChildren m vp th ts x = none
  | [], _, _ => rfl
  | c :: rest, x, h => by
    rw [coldValChildren]
    rw [subtreeIdsList] at h
    rw [if_neg (fun hx => h (List.mem_append_left _ hx))]
    exact coldValChildren_not_mem m vp th rest x (fun hx => h (List.mem_append_right _ hx))

/-- A cold criticality below a list of children is false outside their ids. -/
theorem coldCritChildren_not_mem (m : DMModel) (vp : Viewport) (th : Rat) :
    ∀ (ts : List RTree) (x : Nat), x ∉ subtreeIdsList ts → coldCritChildren m vp th ts x = false
  | [], _, _ => rfl
  | c :: rest, x, h => by
    rw [coldCritChildren]
    rw [subtreeIdsList] at h
    rw [if_neg (fun hx => h (List.mem_append_left _ hx))]
    exact coldCritChildren_not_mem m vp th rest x (fun hx => h (List.mem_append_right _ hx))

/-- The root id of a region subtree is among its ids. -/
theorem rid_mem (t : RTree) : t.rid ∈ subtreeIds t := by
  obtain ⟨i, b, a, es, cs⟩ := t
  rw [subtreeIds]
  exact List.mem_cons_self _ _

/-- The root id of a listed subtree is among the list ids. -/
theorem child_rid_mem : ∀ (ts : List RTree) (d : RTree), d ∈ ts → d.rid ∈ subtreeIdsList ts
  | c :: rest, d, h => by
    rw [subtreeIdsList]
    rcases List.mem_cons.mp h with h1 | h2
    · subst h1
      exact List.mem_append_left _ (rid_mem d)
    · exact List.mem_append_right _ (child_rid_mem rest d h2)

/-- A cold value below a child list is `some` only inside their ids. -/
theorem coldValChildren_mem (m : DMModel) (vp : Viewport) (th : Rat)
    (ts : List RTree) (x : Nat) (v : Bool) (h : coldValChildren m vp th ts x = some v) :
    x ∈ subtreeIdsList ts := by
  by_contra hx
  rw [coldValChildren_not_mem m vp th ts x hx] at h
  exact Option.noConfusion h

mutual
/-- A cold-critical id lies in the subtree. -/
theorem coldCrit_mem (m : DMModel) (vp : Viewport) (th : Rat) :
    ∀ (t : RTree) (x : Nat), coldCrit m vp th t x = true → x ∈ subtreeIds t
  | .node i b a es cs, x, h => by
    rw [coldCrit] at h
    rw [subtreeIds]
    by_cases hx : x = i
    · exact hx ▸ List.mem_cons_self _ _
    · rw [if_neg hx] at h
      exact List.mem_cons_of_mem _ (coldCritChildren_mem m vp th cs x h)

/-- A cold-critical id below a child list lies in the child ids. -/
theorem coldCritChildren_mem (m : DMModel) (vp : Viewport) (th : Rat) :
    ∀ (ts : List RTree) (x : Nat), coldCritChildren m vp th ts x = true → x ∈ subtreeIdsList ts
  | c :: rest, x, h => by
    rw [coldCritChildren] at h
    rw [subtreeIdsList]
    by_cases hx : x ∈ subtreeIds c
    · exact List.mem_append_left _ hx
    · rw [if_neg hx] at h
      exact List.mem_append_right _ (coldCritChildren_mem m vp th rest x h)
end

mutual
/--
Characterisation of `searchUntilCollapse` on a reached subtree whose
region states are all unwritten and whose ids are absent from the
critical set: the resulting states are exactly `coldVal`, and the
critical set gains exactly the `coldCrit` ids.
-/
theorem sUC_cold_char (m : DMModel) (vp : Viewport) (th : Rat) :
    ∀ (t : RTree) (s : DMState),
    (subtreeIds t).Nodup →
    (∀ x ∈ subtreeIds t, s.regExp x = none) →
    (∀ x ∈ subtreeIds t, x ∉ s.critical) →
    (∀ x, (sUC m vp th t s).regExp x
        = if x ∈ subtreeIds t then coldVal m vp th t x else s.regExp x)
    ∧ (∀ x, x ∈ (sUC m vp th t s).critical ↔ x ∈ s.critical ∨ coldCrit m vp th t x = true)
  | .node i b a es cs, s, hnd, hnone, hcrit => by
    rw [subtreeIds] at hnd hnone hcrit
    have hi : i ∉ subtreeIdsList cs := (List.nodup_cons.mp hnd).1
    have hndcs : (subtreeIdsList cs).Nodup := (List.nodup_cons.mp hnd).2
    have h0reg : ∀ x, (setExpSt (RTree.node i b a es cs) true s).regExp x
        = if x = i then some true else s.regExp x := by
      intro x
      rw [setExpSt_regExp]
      rfl
    have h0crit : (setExpSt (RTree.node i b a es cs) true s).critical = s.critical :=
      setExpSt_critical _ _ _
    have ihc := sUCChildren_cold_char m vp th i cs (setExpSt (RTree.node i b a es cs) true s)
      hndcs hi
      (by
        intro x hx
        rw [h0reg, if_neg (by rintro rfl; exact hi hx)]
        exact hnone x (List.mem_cons_of_mem _ hx))
      (by
        intro x hx
        rw [h0crit]
        exact hcrit x (List.mem_cons_of_mem _ hx))
    rw [sUC]
    constructor
    · intro x
      rw [ihc.1 x, h0reg]
      by_cases hxi : x = i
      · subst hxi
        simp [subtreeIds, coldVal, hi]
      · by_cases hx : x ∈ subtreeIdsList cs
        · simp [subtreeIds, coldVal, hx, hxi]
        · simp [subtreeIds, coldVal, hx, hxi]
    · intro x
      rw [ihc.2 x, h0crit, coldCrit]
      by_cases hxi : x = i
      · subst hxi
        rw [if_pos rfl]
        constructor
        · rintro (h1 | ⟨-, h2⟩ | h3)
          · exact Or.inl h1
          · exact Or.inr h2
          · exact absurd (coldCritChildren_mem m vp th cs x h3) hi
        · rintro (h1 | h2)
          · exact Or.inl h1
          · exact Or.inr (Or.inl ⟨rfl, h2⟩)
      · rw [if_neg hxi]
        constructor
        · rintro (h1 | ⟨h2, -⟩ | h3)
          · exact Or.inl h1
          · exact absurd h2 hxi
          · exact Or.inr h3
        · rintro (h1 | h2)
          · exact Or.inl h1
          · exact Or.inr (Or.inr h2)

/--
Characterisation of the child loop of `searchUntilCollapse` under the
same preconditions, relative to the parent id it may mark critical.
-/
theorem sUCChildren_cold_char (m : DMModel) (vp : Viewport) (th : Rat) :
    ∀ (pid : Nat) (ts : List RTree) (s : DMState),
    (subtreeIdsList ts).Nodup →
    pid ∉ subtreeIdsList ts →
    (∀ x ∈ subtreeIdsList ts, s.regExp x = none) →
    (∀ x ∈ subtreeIdsList ts, x ∉ s.critical) →
    (∀ x, (sUCChildren m vp th pid ts s).regExp x
        = if x ∈ subtreeIdsList ts then coldValChildren m vp th ts x else s.regExp x)
    ∧ (∀ x, x ∈ (sUCChildren m vp th pid ts s).critical
        ↔ x ∈ s.critical
          ∨ (x = pid ∧ (ts.any fun c => c.br.isSome && !(getExpansionState m c vp th)) = true)
          ∨ coldCritChildren m vp th ts x = true)
  | pid, [], s, _, _, _, _ => by
    rw [sUCChildren]
    constructor
    · intro x
      rw [subtreeIdsList, coldValChildren]
      simp
    · intro x
      rw [coldCritChildren]
      simp
  | pid, c :: rest, s, hnd, hpid, hnone, hcrit => by
    rw [subtreeIdsList] at hnd hpid hnone hcrit
    have hndc : (subtreeIds c).Nodup := (List.nodup_append.mp hnd).1
    have hndr : (subtreeIdsList rest).Nodup := (List.nodup_append.mp hnd).2.1
    have hdisj : (subtreeIds c).Disjoint (subtreeIdsList rest) := (List.nodup_append.mp hnd).2.2
    have hpidc : pid ∉ subtreeIds c := fun hx => hpid (List.mem_append_left _ hx)
    have hpidr : pid ∉ subtreeIdsList rest := fun hx => hpid (List.mem_append_right _ hx)
    have hcrid : c.rid ∈ subtreeIds c := rid_mem c
    rw [sUCChildren]
    by_cases hbr : c.br.isSome
    · by_cases htest : getExpansionState m c vp th = false
      · -- the child tests COLLAPSED: mark pid critical and collapse the child
        simp only [hbr, htest, if_true, if_pos]
        have hrc : rc c { s with critical := ordAdd s.critical pid }
            = setExpSt c false { s with critical := ordAdd s.critical pid } := by
          apply rc_closed
          · intro d hd
            have hdm : d.rid ∈ subtreeIds c := by
              obtain ⟨j, bb, aa, ee, gs⟩ := c
              rw [RTree.children] at hd
              rw [subtreeIds]
              exact List.mem_cons_of_mem _ (child_rid_mem gs d hd)
            have h1 : s.regExp d.rid = none := hnone _ (List.mem_append_left _ hdm)
            intro hcontra
            rw [h1] at hcontra
            exact Option.noConfusion hcontra
          · intro hmem
            rw [ordAdd_mem] at hmem
            rcases hmem with h1 | h2
            · exact hcrit _ (List.mem_append_left _ hcrid) h1
            · exact hpidc (h2 ▸ hcrid)
        rw [hrc]
        have hsreg : ∀ x, (setExpSt c false { s with critical := ordAdd s.critical pid }).regExp x
            = if x = c.rid then some false else s.regExp x := by
          intro x
          rw [setExpSt_regExp]
        have hscrit : (setExpSt c false { s with critical := ordAdd s.critical pid }).critical
            = ordAdd s.critical pid := setExpSt_critical _ _ _
        have ihr := sUCChildren_cold_char m vp th pid rest
          (setExpSt c false { s with critical := ordAdd s.critical pid })
          hndr hpidr
          (by
            intro x hx
            rw [hsreg, if_neg (by rintro rfl; exact hdisj hcrid hx)]
            exact hnone x (List.mem_append_right _ hx))
          (by
            intro x hx
            rw [hscrit, ordAdd_mem]
            rintro (h1 | rfl)
            · exact hcrit x (List.mem_append_right _ hx) h1
            · exact hpidr hx)
        constructor
        · intro x
          rw [ihr.1 x, hsreg]
          by_cases hx : x ∈ subtreeIdsList rest
          · have hxc : x ∉ subtreeIds c := fun hm => hdisj hm hx
            have hxr : ¬ x = c.rid := by rintro rfl; exact hxc hcrid
            simp [subtreeIdsList, coldValChildren, hx, hxc, hxr]
          · by_cases hxc : x ∈ subtreeIds c
            · by_cases hxr : x = c.rid
              · subst hxr
                simp [subtreeIdsList, coldValChildren, hx, hxc, hbr, htest]
              · simp [subtreeIdsList, coldValChildren, hx, hxc, hxr, hbr, htest,
                  hnone x (List.mem_append_left _ hxc)]
            · have hxr : ¬ x = c.rid := by rintro rfl; exact hxc hcrid
              simp [subtreeIdsList, coldValChildren, hx, hxc, hxr]
        · intro x
          rw [ihr.2 x, hscrit, ordAdd_mem]
          rw [List.any_cons]
          have hctrue : (c.br.isSome && !(getExpansionState m c vp th)) = true := by
            rw [hbr, htest]
            rfl
          rw [hctrue]
          rw [coldCritChildren]
          constructor
          · rintro ((h1 | h2) | ⟨rfl, -⟩ | h3)
            · exact Or.inl h1
            · exact Or.inr (Or.inl ⟨h2, rfl⟩)
            · exact Or.inr (Or.inl ⟨rfl, rfl⟩)
            · refine Or.inr (Or.inr ?_)
              have hxm := coldCritChildren_mem m vp th rest x h3
              rw [if_neg (fun hmem => hdisj hmem hxm)]
              exact h3
          · rintro (h1 | ⟨rfl, -⟩ | h3)
            · exact Or.inl (Or.inl h1)
            · exact Or.inl (Or.inr rfl)
            · by_cases hxc : x ∈ subtreeIds c
              · rw [if_pos hxc, htest] at h3
                simp at h3
              · rw [if_neg hxc] at h3
                exact Or.inr (Or.inr h3)
      · -- the child tests EXPANDED: descend
        rw [Bool.not_eq_false] at htest
        simp only [hbr, htest, if_true, Bool.true_eq_false, if_false, if_pos]
        have ihc := sUC_cold_char m vp th c s hndc
          (fun x hx => hnone x (List.mem_append_left _ hx))
          (fun x hx => hcrit x (List.mem_append_left _ hx))
        have ihr := sUCChildren_cold_char m vp th pid rest (sUC m vp th c s)
          hndr hpidr
          (by
            intro x hx
            rw [ihc.1 x, if_neg (fun hmem => hdisj hmem hx)]
            exact hnone x (List.mem_append_right _ hx))
          (by
            intro x hx
            rw [ihc.2 x]
            rintro (h1 | h2)
            · exact hcrit x (List.mem_append_right _ hx) h1
            · exact hdisj (coldCrit_mem m vp th c x h2) hx)
        constructor
        · intro x
          rw [ihr.1 x, ihc.1 x]
          by_cases hx : x ∈ subtreeIdsList rest
          · have hxc : x ∉ subtreeIds c := fun hm => hdisj hm hx
            simp [subtreeIdsList, coldValChildren, hx, hxc]
          · by_cases hxc : x ∈ subtreeIds c
            · simp [subtreeIdsList, coldValChildren, hx, hxc, hbr, htest]
            · simp [subtreeIdsList, coldValChildren, hx, hxc]
        · intro x
          rw [ihr.2 x, ihc.2 x]
          rw [List.any_cons]
          have hcfalse : (c.br.isSome && !(getExpansionState m c vp th)) = false := by
            rw [hbr, htest]
            rfl
          rw [hcfalse, Bool.false_or]
          rw [coldCritChildren]
          constructor
          · rintro ((h1 | h2) | ⟨rfl, h2⟩ | h3)
            · exact Or.inl h1
            · refine Or.inr (Or.inr ?_)
              have hxm := coldCrit_mem m vp th c x h2
              rw [if_pos hxm, hbr, htest, h2]
              rfl
            · exact Or.inr (Or.inl ⟨rfl, h2⟩)
            · refine Or.inr (Or.inr ?_)
              have hxm := coldCritChildren_mem m vp th rest x h3
              rw [if_neg (fun hmem => hdisj hmem hxm)]
              exact h3
          · rintro (h1 | ⟨rfl, h2⟩ | h3)
            · exact Or.inl (Or.inl h1)
            · exact Or.inr (Or.inl ⟨rfl, h2⟩)
            · by_cases hxc : x ∈ subtreeIds c
              · rw [if_pos hxc, hbr, htest] at h3
                simp only [Bool.true_and] at h3
                exact Or.inl (Or.inr h3)
              · rw [if_neg hxc] at h3
                exact Or.inr (Or.inr h3)
    · -- the child has no bounding rectangle: it is skipped entirely
      simp only [hbr, if_false, Bool.false_eq_true]
      have ihr := sUCChildren_cold_char m vp th pid rest s hndr hpidr
        (fun x hx => hnone x (List.mem_append_right _ hx))
        (fun x hx => hcrit x (List.mem_append_right _ hx))
      rw [Bool.not_eq_true] at hbr
      constructor
      · intro x
        rw [ihr.1 x]
        by_cases hx : x ∈ subtreeIdsList rest
        · have hxc : x ∉ subtreeIds c := fun hm => hdisj hm hx
          simp [subtreeIdsList, coldValChildren, hx, hxc]
        · by_cases hxc : x ∈ subtreeIds c
          · simp [subtreeIdsList, coldValChildren, hx, hxc, hbr,
              hnone x (List.mem_append_left _ hxc)]
          · simp [subtreeIdsList, coldValChildren, hx, hxc]
      · intro x
        rw [ihr.2 x]
        rw [List.any_cons]
        have hcfalse : (c.br.isSome && !(getExpansionState m c vp th)) = false := by
          rw [hbr]
          rfl
        rw [hcfalse, Bool.false_or]
        rw [coldCritChildren]
        constructor
        · rintro (h1 | ⟨rfl, h2⟩ | h3)
          · exact Or.inl h1
          · exact Or.inr (Or.inl ⟨rfl, h2⟩)
          · refine Or.inr (Or.inr ?_)
            have hxm := coldCritChildren_mem m vp th rest x h3
            rw [if_neg (fun hmem => hdisj hmem hxm)]
            exact h3
        · rintro (h1 | ⟨rfl, h2⟩ | h3)
          · exact Or.inl h1
          · exact Or.inr (Or.inl ⟨rfl, h2⟩)
          · by_cases hxc : x ∈ subtreeIds c
            · rw [if_pos hxc] at h3
              rw [hbr] at h3
              simp at h3
            · rw [if_neg hxc] at h3
              exact Or.inr (Or.inr h3)
end

mutual
/-- Both components of a parent pair lie in the subtree ids. -/
theorem parentPairsTree_mem (c p : Nat) :
    ∀ (t : RTree), (c, p) ∈ parentPairsTree t → c ∈ subtreeIds t ∧ p ∈ subtreeIds t
  | .node i b a es cs, h => by
    rw [parentPairsTree] at h
    rw [subtreeIds]
    rcases parentPairsChildren_mem c p i cs h with ⟨h1, h2 | h2⟩
    · exact ⟨List.mem_cons_of_mem _ h1, h2 ▸ List.mem_cons_self _ _⟩
    · exact ⟨List.mem_cons_of_mem _ h1, List.mem_cons_of_mem _ h2⟩

/-- Components of a parent pair below a child list: the child id is a
listed id and the parent is the given parent id or a listed id. -/
theorem parentPairsChildren_mem (c p : Nat) :
    ∀ (i : Nat) (ts : List RTree), (c, p) ∈ parentPairsChildren i ts →
    c ∈ subtreeIdsList ts ∧ (p = i ∨ p ∈ subtreeIdsList ts)
  | i, d :: rest, h => by
    rw [parentPairsChildren] at h
    rw [subtreeIdsList]
    rcases List.mem_cons.mp h with h1 | h1
    · rw [Prod.mk.injEq] at h1
      obtain ⟨hc, hp⟩ := h1
      subst hc
      subst hp
      exact ⟨List.mem_append_left _ (rid_mem d), Or.inl rfl⟩
    · rcases List.mem_append.mp h1 with h2 | h2
      · rcases parentPairsTree_mem c p d h2 with ⟨hc, hp⟩
        exact ⟨List.mem_append_left _ hc, Or.inr (List.mem_append_left _ hp)⟩
      · rcases parentPairsChildren_mem c p i rest h2 with ⟨hc, hp | hp⟩
        · exact ⟨List.mem_append_right _ hc, Or.inl hp⟩
        · exact ⟨List.mem_append_right _ hc, Or.inr (List.mem_append_right _ hp)⟩
end

mutual
/-- In the cold result on a reached subtree, a region marked EXPANDED
has its parent marked EXPANDED. -/
theorem coldVal_parent (m : DMModel) (vp : Viewport) (th : Rat) :
    ∀ (t : RTree) (c p : Nat), (c, p) ∈ parentPairsTree t → (subtreeIds t).Nodup →
    coldVal m vp th t c = some true → coldVal m vp th t p = some true
  | .node i b a es cs, c, p, hpair, hnd, hval => by
    rw [parentPairsTree] at hpair
    rw [subtreeIds] at hnd
    have hi : i ∉ subtreeIdsList cs := (List.nodup_cons.mp hnd).1
    have hndcs := (List.nodup_cons.mp hnd).2
    have hcmem := (parentPairsChildren_mem c p i cs hpair).1
    have hci : ¬ c = i := by rintro rfl; exact hi hcmem
    rw [coldVal] at hval ⊢
    rw [if_neg hci] at hval
    rcases coldValChildren_parent m vp th cs i c p hpair hndcs hval with hp | hp
    · rw [if_pos hp]
    · have hpmem := coldValChildren_mem m vp th cs p true hp
      rw [if_neg (by rintro rfl; exact hi hpmem)]
      exact hp

/-- Children version of `coldVal_parent`. -/
theorem coldValChildren_parent (m : DMModel) (vp : Viewport) (th : Rat) :
    ∀ (ts : List RTree) (i : Nat) (c p : Nat), (c, p) ∈ parentPairsChildren i ts →
    (subtreeIdsList ts).Nodup →
    coldValChildren m vp th ts c = some true →
    p = i ∨ coldValChildren m vp th ts p = some true
  | [], i, c, p, hpair, _, _ => by
    rw [parentPairsChildren] at hpair
    exact absurd hpair (List.not_mem_nil _)
  | d :: rest, i, c, p, hpair, hnd, hval => by
    rw [parentPairsChildren] at hpair
    rw [subtreeIdsList] at hnd
    have hndd := (List.nodup_append.mp hnd).1
    have hndr := (List.nodup_append.mp hnd).2.1
    have hdisj := (List.nodup_append.mp hnd).2.2
    rcases List.mem_cons.mp hpair with h1 | h1
    · rw [Prod.mk.injEq] at h1
      exact Or.inl h1.2
    · rcases List.mem_append.mp h1 with h2 | h2
      · have hcm := (parentPairsTree_mem c p d h2).1
        have hpm := (parentPairsTree_mem c p d h2).2
        rw [coldValChildren] at hval
        rw [if_pos hcm] at hval
        by_cases hbr : d.br.isSome = true
        · rw [if_pos hbr] at hval
          by_cases htest : getExpansionState m d vp th = false
          · rw [if_pos htest] at hval
            by_cases hcd : c = d.rid
            · rw [if_pos hcd] at hval
              exact absurd hval (by simp)
            · rw [if_neg hcd] at hval
              exact absurd hval (by simp)
          · rw [if_neg htest] at hval
            have hres := coldVal_parent m vp th d c p h2 hndd hval
            refine Or.inr ?_
            rw [coldValChildren]
            rw [if_pos hpm, if_pos hbr, if_neg htest]
            exact hres
        · rw [if_neg hbr] at hval
          exact absurd hval (by simp)
      · have hcm := (parentPairsChildren_mem c p i rest h2).1
        have hcd : c ∉ subtreeIds d := fun hx => hdisj hx hcm
        rw [coldValChildren] at hval
        rw [if_neg hcd] at hval
        rcases coldValChildren_parent m vp th rest i c p h2 hndr hval with hp | hp
        · exact Or.inl hp
        · refine Or.inr ?_
          have hpm := coldValChildren_mem m vp th rest p true hp
          rw [coldValChildren]
          rw [if_neg (fun hx => hdisj hx hpm)]
          exact hp
end

/-- A cold forest value is `none` outside the forest ids. -/
theorem coldForestVal_not_mem (m : DMModel) (vp : Viewport) (th : Rat) :
    ∀ (ts : List RTree) (x : Nat), x ∉ subtreeIdsList ts → coldForestVal m vp th ts x = none
  | [], _, _ => rfl
  | t :: rest, x, h => by
    rw [subtreeIdsList] at h
    rw [coldForestVal]
    rw [if_neg (fun hx => h (List.mem_append_left _ hx))]
    exact coldForestVal_not_mem m vp th rest x (fun hx => h (List.mem_append_right _ hx))

/-- A cold forest value is `some` only inside the forest ids. -/
theorem coldForestVal_mem (m : DMModel) (vp : Viewport) (th : Rat)
    (ts : List RTree) (x : Nat) (v : Bool) (h : coldForestVal m vp th ts x = some v) :
    x ∈ subtreeIdsList ts := by
  by_contra hx
  rw [coldForestVal_not_mem m vp th ts x hx] at h
  exact Option.noConfusion h

/-- A cold-forest-critical id lies in the forest ids. -/
theorem coldForestCrit_mem (m : DMModel) (vp : Viewport) (th : Rat) :
    ∀ (ts : List RTree) (x : Nat), coldForestCrit m vp th ts x = true → x ∈ subtreeIdsList ts
  | t :: rest, x, h => by
    rw [coldForestCrit] at h
    rw [subtreeIdsList]
    by_cases hx : x ∈ subtreeIds t
    · exact List.mem_append_left _ hx
    · rw [if_neg hx] at h
      exact List.mem_append_right _ (coldForestCrit_mem m vp th rest x h)

/-- Both components of a forest parent pair lie in the forest ids. -/
theorem forestPairs_mem (c p : Nat) :
    ∀ (ts : List RTree), (c, p) ∈ forestPairs ts →
    c ∈ subtreeIdsList ts ∧ p ∈ subtreeIdsList ts
  | t :: rest, h => by
    rw [forestPairs] at h
    rw [subtreeIdsList]
    rcases List.mem_append.mp h with h1 | h1
    · rcases parentPairsTree_mem c p t h1 with ⟨hc, hp⟩
      exact ⟨List.mem_append_left _ hc, List.mem_append_left _ hp⟩
    · rcases forestPairs_mem c p rest h1 with ⟨hc, hp⟩
      exact ⟨List.mem_append_right _ hc, List.mem_append_right _ hp⟩

/--
Characterisation of the cold-start pass (`expandCollapse` with an empty
critical set) folded over a list of root regions whose ids are fresh:
the resulting states are `coldForestVal` and the critical additions are
`coldForestCrit`.
-/
theorem coldFold_char (m : DMModel) (vp : Viewport) (th : Rat) :
    ∀ (ts : List RTree) (s : DMState),
    (subtreeIdsList ts).Nodup →
    (∀ x ∈ subtreeIdsList ts, s.regExp x = none) →
    (∀ x ∈ subtreeIdsList ts, x ∉ s.critical) →
    (∀ x, (ts.foldl
        (fun st t => if getExpansionState m t vp th = true then sUC m vp th t st else st)
        s).regExp x
      = if x ∈ subtreeIdsList ts then coldForestVal m vp th ts x else s.regExp x)
    ∧ (∀ x, x ∈ (ts.foldl
        (fun st t => if getExpansionState m t vp th = true then sUC m vp th t st else st)
        s).critical ↔ x ∈ s.critical ∨ coldForestCrit m vp th ts x = true)
  | [], s, _, _, _ => by
    constructor
    · intro x
      rw [List.foldl_nil, subtreeIdsList, coldForestVal]
      simp
    · intro x
      rw [List.foldl_nil, coldForestCrit]
      simp
  | t :: rest, s, hnd, hnone, hcrit => by
    rw [subtreeIdsList] at hnd hnone hcrit
    have hndt := (List.nodup_append.mp hnd).1
    have hndr := (List.nodup_append.mp hnd).2.1
    have hdisj := (List.nodup_append.mp hnd).2.2
    rw [List.foldl_cons]
    by_cases htest : getExpansionState m t vp th = true
    · rw [if_pos htest]
      have iht := sUC_cold_char m vp th t s hndt
        (fun x hx => hnone x (List.mem_append_left _ hx))
        (fun x hx => hcrit x (List.mem_append_left _ hx))
      have ihr := coldFold_char m vp th rest (sUC m vp th t s) hndr
        (by
          intro x hx
          rw [iht.1 x, if_neg (fun hm => hdisj hm hx)]
          exact hnone x (List.mem_append_right _ hx))
        (by
          intro x hx
          rw [iht.2 x]
          rintro (h1 | h2)
          · exact hcrit x (List.mem_append_right _ hx) h1
          · exact hdisj (coldCrit_mem m vp th t x h2) hx)
      constructor
      · intro x
        rw [ihr.1 x, iht.1 x]
        by_cases hx : x ∈ subtreeIdsList rest
        · have hxt : x ∉ subtreeIds t := fun hm => hdisj hm hx
          simp [subtreeIdsList, coldForestVal, hx, hxt]
        · by_cases hxt : x ∈ subtreeIds t
          · simp [subtreeIdsList, coldForestVal, hx, hxt, htest]
          · simp [subtreeIdsList, coldForestVal, hx, hxt]
      · intro x
        rw [ihr.2 x, iht.2 x, coldForestCrit]
        by_cases hxt : x ∈ subtreeIds t
        · rw [if_pos hxt, htest]
          constructor
          · rintro ((h1 | h2) | h3)
            · exact Or.inl h1
            · exact Or.inr (by rw [Bool.true_and]; exact h2)
            · exact absurd (coldForestCrit_mem m vp th rest x h3) (fun hm => hdisj hxt hm)
          · rintro (h1 | h2)
            · exact Or.inl (Or.inl h1)
            · rw [Bool.true_and] at h2
              exact Or.inl (Or.inr h2)
        · rw [if_neg hxt]
          constructor
          · rintro ((h1 | h2) | h3)
            · exact Or.inl h1
            · exact absurd (coldCrit_mem m vp th t x h2) hxt
            · exact Or.inr h3
          · rintro (h1 | h2)
            · exact Or.inl (Or.inl h1)
            · exact Or.inr h2
    · rw [if_neg htest]
      have ihr := coldFold_char m vp th rest s hndr
        (fun x hx => hnone x (List.mem_append_right _ hx))
        (fun x hx => hcrit x (List.mem_append_right _ hx))
      rw [Bool.not_eq_true] at htest
      constructor
      · intro x
        rw [ihr.1 x]
        by_cases hx : x ∈ subtreeIdsList rest
        · have hxt : x ∉ subtreeIds t := fun hm => hdisj hm hx
          simp [subtreeIdsList, coldForestVal, hx, hxt]
        · by_cases hxt : x ∈ subtreeIds t
          · simp [subtreeIdsList, coldForestVal, hx, hxt, htest,
              hnone x (List.mem_append_left _ hxt)]
          · simp [subtreeIdsList, coldForestVal, hx, hxt]
      · intro x
        rw [ihr.2 x, coldForestCrit]
        by_cases hxt : x ∈ subtreeIds t
        · rw [if_pos hxt, htest]
          constructor
          · rintro (h1 | h3)
            · exact Or.inl h1
            · exact absurd (coldForestCrit_mem m vp th rest x h3) (fun hm => hdisj hxt hm)
          · rintro (h1 | h2)
            · exact Or.inl h1
            · rw [Bool.false_and] at h2
              exact absurd h2 (by simp)
        · rw [if_neg hxt]

/--
Characterisation of the first `expandCollapse` call on a freshly
constructed DepthMap: the region states are exactly `coldForestVal` and
the critical set is exactly `coldForestCrit`.
-/
theorem expandCollapse_fresh_char (m : DMModel) (opts : Option Rat) (vp : Viewport)
    (hnd : (subtreeIdsList m.forest).Nodup) :
    (∀ x, (expandCollapse m opts vp freshState).regExp x
        = coldForestVal m vp (thresholdOf opts) m.forest x)
    ∧ (∀ x, x ∈ (expandCollapse m opts vp freshState).critical
        ↔ coldForestCrit m vp (thresholdOf opts) m.forest x = true) := by
  have hstep : expandCollapse m opts vp freshState
      = m.forest.foldl
          (fun st t => if getExpansionState m t vp (thresholdOf opts) = true
            then sUC m vp (thresholdOf opts) t st else st)
          { freshState with viewport := some ⟨vp.scroll, vp.scrollId, vp.zoom⟩ } := rfl
  have hchar := coldFold_char m vp (thresholdOf opts) m.forest
    { freshState with viewport := some ⟨vp.scroll, vp.scrollId, vp.zoom⟩ } hnd
    (fun x _ => rfl) (fun x _ => List.not_mem_nil x)
  constructor
  · intro x
    rw [hstep, hchar.1 x]
    by_cases hx : x ∈ subtreeIdsList m.forest
    · rw [if_pos hx]
    · rw [if_neg hx, coldForestVal_not_mem m vp (thresholdOf opts) m.forest x hx]
      rfl
  · intro x
    rw [hstep, hchar.2 x]
    constructor
    · rintro (h1 | h2)
      · exact absurd h1 (List.not_mem_nil x)
      · exact h2
    · exact Or.inr

/-- In the cold forest result, an expanded region has an expanded parent. -/
theorem coldForestVal_parent (m : DMModel) (vp : Viewport) (th : Rat) :
    ∀ (ts : List RTree) (c p : Nat), (c, p) ∈ forestPairs ts →
    (subtreeIdsList ts).Nodup →
    coldForestVal m vp th ts c = some true → coldForestVal m vp th ts p = some true
  | t :: rest, c, p, hpair, hnd, hval => by
    rw [forestPairs] at hpair
    rw [subtreeIdsList] at hnd
    have hndt := (List.nodup_append.mp hnd).1
    have hndr := (List.nodup_append.mp hnd).2.1
    have hdisj := (List.nodup_append.mp hnd).2.2
    rcases List.mem_append.mp hpair with h1 | h1
    · obtain ⟨hcm, hpm⟩ := parentPairsTree_mem c p t h1
      rw [coldForestVal, if_pos hcm] at hval
      by_cases htest : getExpansionState m t vp th = true
      · rw [if_pos htest] at hval
        have hres := coldVal_parent m vp th t c p h1 hndt hval
        rw [coldForestVal, if_pos hpm, if_pos htest]
        exact hres
      · rw [if_neg htest] at hval
        exact absurd hval (by simp)
    · obtain ⟨hcm, hpm⟩ := forestPairs_mem c p rest h1
      rw [coldForestVal, if_neg (fun hm => hdisj hm hcm)] at hval
      have hres := coldForestVal_parent m vp th rest c p h1 hndr hval
      rw [coldForestVal, if_neg (fun hm => hdisj hm hpm)]
      exact hres

/--
Claim C2 (amended): after the FIRST `expandCollapse` call on a freshly
constructed DepthMap with distinct region ids, for every Region with a
parent Region, if its `expansionState` is EXPANDED then its parent's
`expansionState` is EXPANDED.  (Subsequent incremental calls can break
this invariant — see the counterexample.)
-/
theorem no_orphaned_expansion_after_first_call (m : DMModel) (opts : Option Rat)
    (vp : Viewport) (c p : Nat)
    (hnd : (subtreeIdsList m.forest).Nodup)
    (hpair : (c, p) ∈ forestPairs m.forest)
    (hc : (expandCollapse m opts vp freshState).regExp c = some true) :
    (expandCollapse m opts vp freshState).regExp p = some true := by
  rw [(expandCollapse_fresh_char m opts vp hnd).1 c] at hc
  rw [(expandCollapse_fresh_char m opts vp hnd).1 p]
  exact coldForestVal_parent m vp (thresholdOf opts) m.forest c p hpair hnd hc

/--
Witness for the amended claim C2 at a concrete input: on `mOrphan`
after the first call at `vpA`, region 2 is expanded and its parent,
region 1, is derived expanded by the theorem.
-/
theorem no_orphaned_expansion_after_first_call_witness :
    (expandCollapse mOrphan none vpA freshState).regExp 1 = some true :=
  no_orphaned_expansion_after_first_call mOrphan none vpA 2 1
    (by decide) (by decide) (by decide)

/-- A listed subtree root forms a parent pair with the given parent id. -/
theorem rid_pair_mem (i : Nat) :
    ∀ (ts : List RTree) (d : RTree), d ∈ ts → (d.rid, i) ∈ parentPairsChildren i ts
  | e :: rest, d, h => by
    rw [parentPairsChildren]
    rcases List.mem_cons.mp h with h1 | h1
    · subst h1
      exact List.mem_cons_self _ _
    · exact List.mem_cons_of_mem _
        (List.mem_append_right _ (rid_pair_mem i rest d h1))

/-- A parent pair whose parent is the (fresh) given id names a listed root. -/
theorem pair_snd_self (i c : Nat) :
    ∀ (ts : List RTree), (c, i) ∈ parentPairsChildren i ts → i ∉ subtreeIdsList ts →
    ∃ d ∈ ts, c = d.rid
  | e :: rest, h, hi => by
    rw [parentPairsChildren] at h
    rw [subtreeIdsList] at hi
    rcases List.mem_cons.mp h with h1 | h1
    · rw [Prod.mk.injEq] at h1
      exact ⟨e, List.mem_cons_self _ _, h1.1⟩
    · rcases List.mem_append.mp h1 with h2 | h2
      · exact absurd (parentPairsTree_mem c i e h2).2
          (fun hm => hi (List.mem_append_left _ hm))
      · obtain ⟨d, hd, hc⟩ := pair_snd_self i c rest h2
          (fun hm => hi (List.mem_append_right _ hm))
        exact ⟨d, List.mem_cons_of_mem _ hd, hc⟩

/-- A listed root with a bounding rectangle that tests COLLAPSED gets
cold value `some false`. -/
theorem collapsedChild_val (m : DMModel) (vp : Viewport) (th : Rat) :
    ∀ (ts : List RTree) (d : RTree), d ∈ ts → (subtreeIdsList ts).Nodup →
    d.br.isSome = true → getExpansionState m d vp th = false →
    coldValChildren m vp th ts d.rid = some false
  | e :: rest, d, h, hnd, hbr, htest => by
    rw [subtreeIdsList] at hnd
    have hdisj := (List.nodup_append.mp hnd).2.2
    rw [coldValChildren]
    rcases List.mem_cons.mp h with h1 | h1
    · subst h1
      rw [if_pos (rid_mem d), if_pos hbr, if_pos htest, if_pos rfl]
    · have hm : d.rid ∈ subtreeIdsList rest := child_rid_mem rest d h1
      rw [if_neg (fun hx => hdisj hx hm)]
      exact collapsedChild_val m vp th rest d h1 (List.nodup_append.mp hnd).2.1 hbr htest

/-- Conversely, a listed root with cold value `some false` has a
bounding rectangle and tests COLLAPSED. -/
theorem collapsedChild_val_inv (m : DMModel) (vp : Viewport) (th : Rat) :
    ∀ (ts : List RTree) (d : RTree), d ∈ ts → (subtreeIdsList ts).Nodup →
    coldValChildren m vp th ts d.rid = some false →
    d.br.isSome = true ∧ getExpansionState m d vp th = false
  | e :: rest, d, h, hnd, hval => by
    rw [subtreeIdsList] at hnd
    have hdisj := (List.nodup_append.mp hnd).2.2
    rw [coldValChildren] at hval
    rcases List.mem_cons.mp h with h1 | h1
    · subst h1
      rw [if_pos (rid_mem d)] at hval
      by_cases hbr : d.br.isSome = true
      · rw [if_pos hbr] at hval
        by_cases htest : getExpansionState m d vp th = false
        · exact ⟨hbr, htest⟩
        · rw [if_neg htest] at hval
          have : coldVal m vp th d d.rid = some true := by
            obtain ⟨j, b, a, es, cs⟩ := d
            rw [coldVal]
            rw [RTree.rid]
            rw [if_pos rfl]
          rw [this] at hval
          exact absurd hval (by simp)
      · rw [if_neg hbr] at hval
        exact absurd hval (by simp)
    · have hm : d.rid ∈ subtreeIdsList rest := child_rid_mem rest d h1
      rw [if_neg (fun hx => hdisj hx hm)] at hval
      exact collapsedChild_val_inv m vp th rest d h1 (List.nodup_append.mp hnd).2.1 hval

mutual
/--
On a reached subtree, a region id is cold-critical iff its cold value
is EXPANDED and some child pair carries cold value COLLAPSED.
-/
theorem coldCrit_iff (m : DMModel) (vp : Viewport) (th : Rat) :
    ∀ (t : RTree) (x : Nat), (subtreeIds t).Nodup →
    (coldCrit m vp th t x = true
      ↔ coldVal m vp th t x = some true
        ∧ ∃ c, (c, x) ∈ parentPairsTree t ∧ coldVal m vp th t c = some false)
  | .node i b a es cs, x, hnd => by
    rw [subtreeIds] at hnd
    have hi : i ∉ subtreeIdsList cs := (List.nodup_cons.mp hnd).1
    have hndcs := (List.nodup_cons.mp hnd).2
    rw [coldCrit, coldVal, parentPairsTree]
    by_cases hxi : x = i
    · subst hxi
      rw [if_pos rfl, if_pos rfl]
      constructor
      · intro hany
        rw [List.any_eq_true] at hany
        obtain ⟨d, hd, hdp⟩ := hany
        rw [Bool.and_eq_true] at hdp
        obtain ⟨hbr, htest⟩ := hdp
        rw [Bool.not_eq_eq_eq_not] at htest
        refine ⟨rfl, d.rid, rid_pair_mem x cs d hd, ?_⟩
        have hm : d.rid ∈ subtreeIdsList cs := child_rid_mem cs d hd
        rw [coldVal]
        rw [if_neg (by rintro h; exact hi (h ▸ hm))]
        exact collapsedChild_val m vp th cs d hd hndcs hbr htest
      · rintro ⟨-, c, hpair, hcval⟩
        obtain ⟨d, hd, rfl⟩ := pair_snd_self x c cs hpair hi
        have hm : d.rid ∈ subtreeIdsList cs := child_rid_mem cs d hd
        rw [coldVal] at hcval
        rw [if_neg (by rintro h; exact hi (h ▸ hm))] at hcval
        obtain ⟨hbr, htest⟩ := collapsedChild_val_inv m vp th cs d hd hndcs hcval
        rw [List.any_eq_true]
        exact ⟨d, hd, by rw [hbr, htest]; rfl⟩
    · rw [if_neg hxi, if_neg hxi]
      rw [coldCritChildren_iff m vp th cs i x hndcs hi hxi]
      constructor
      · rintro ⟨hval, c, hpair, hcval⟩
        refine ⟨hval, c, hpair, ?_⟩
        have hcm := (parentPairsChildren_mem c x i cs hpair).1
        rw [coldVal]
        rw [if_neg (by rintro rfl; exact hi hcm)]
        exact hcval
      · rintro ⟨hval, c, hpair, hcval⟩
        refine ⟨hval, c, hpair, ?_⟩
        have hcm := (parentPairsChildren_mem c x i cs hpair).1
        rw [coldVal] at hcval
        rw [if_neg (by rintro rfl; exact hi hcm)] at hcval
        exact hcval

/-- Children version of `coldCrit_iff`, relative to a fresh parent id. -/
theorem coldCritChildren_iff (m : DMModel) (vp : Viewport) (th : Rat) :
    ∀ (ts : List RTree) (i x : Nat), (subtreeIdsList ts).Nodup →
    i ∉ subtreeIdsList ts → ¬ x = i →
    (coldCritChildren m vp th ts x = true
      ↔ coldValChildren m vp th ts x = some true
        ∧ ∃ c, (c, x) ∈ parentPairsChildren i ts
            ∧ coldValChildren m vp th ts c = some false)
  | [], i, x, _, _, _ => by
    rw [coldCritChildren, coldValChildren, parentPairsChildren]
    simp
  | d :: rest, i, x, hnd, hi, hxi => by
    rw [subtreeIdsList] at hnd hi
    have hndd := (List.nodup_append.mp hnd).1
    have hndr := (List.nodup_append.mp hnd).2.1
    have hdisj := (List.nodup_append.mp hnd).2.2
    have hir : i ∉ subtreeIdsList rest := fun hm => hi (List.mem_append_right _ hm)
    rw [coldCritChildren, coldValChildren, parentPairsChildren]
    by_cases hxd : x ∈ subtreeIds d
    · rw [if_pos hxd, if_pos hxd]
      by_cases hbr : d.br.isSome = true
      · rw [if_pos hbr]
        by_cases htest : getExpansionState m d vp th = false
        · rw [if_pos htest, htest]
          constructor
          · intro habs
            simp at habs
          · rintro ⟨hval, -⟩
            by_cases hxr : x = d.rid
            · rw [if_pos hxr] at hval
              exact absurd hval (by simp)
            · rw [if_neg hxr] at hval
              exact absurd hval (by simp)
        · rw [if_neg htest]
          rw [Bool.not_eq_false] at htest
          rw [hbr, htest]
          have hiff := coldCrit_iff m vp th d x hndd
          constructor
          · intro hcc
            simp only [Bool.true_and] at hcc
            obtain ⟨hval, c, hpair, hcval⟩ := hiff.mp hcc
            refine ⟨hval, c,
              List.mem_cons_of_mem _ (List.mem_append_left _ hpair), ?_⟩
            have hcm := (parentPairsTree_mem c x d hpair).1
            rw [coldValChildren]
            rw [if_pos hcm, if_pos hbr, if_neg (by rw [htest]; simp)]
            exact hcval
          · rintro ⟨hval, c, hpair, hcval⟩
            simp only [Bool.true_and]
            rcases List.mem_cons.mp hpair with h1 | h1
            · rw [Prod.mk.injEq] at h1
              exact absurd h1.2 hxi
            · rcases List.mem_append.mp h1 with h2 | h2
              · have hcm := (parentPairsTree_mem c x d h2).1
                rw [coldValChildren] at hcval
                rw [if_pos hcm, if_pos hbr, if_neg (by rw [htest]; simp)] at hcval
                exact hiff.mpr ⟨hval, c, h2, hcval⟩
              · rcases (parentPairsChildren_mem c x i rest h2).2 with h3 | h3
                · exact absurd h3 hxi
                · exact absurd h3 (fun h3 => hdisj hxd h3)
      · rw [if_neg hbr]
        rw [Bool.not_eq_true] at hbr
        rw [hbr]
        constructor
        · intro habs
          simp at habs
        · rintro ⟨hval, -⟩
          exact absurd hval (by simp)
    · rw [if_neg hxd, if_neg hxd]
      rw [coldCritChildren_iff m vp th rest i x hndr hir hxi]
      constructor
      · rintro ⟨hval, c, hpair, hcval⟩
        refine ⟨hval, c,
          List.mem_cons_of_mem _ (List.mem_append_right _ hpair), ?_⟩
        have hcm := (parentPairsChildren_mem c x i rest hpair).1
        rw [coldValChildren]
        rw [if_neg (fun hm => hdisj hm hcm)]
        exact hcval
      · rintro ⟨hval, c, hpair, hcval⟩
        rcases List.mem_cons.mp hpair with h1 | h1
        · rw [Prod.mk.injEq] at h1
          exact absurd h1.2 hxi
        · rcases List.mem_append.mp h1 with h2 | h2
          · exact absurd (parentPairsTree_mem c x d h2).2 hxd
          · have hcm := (parentPairsChildren_mem c x i rest h2).1
            rw [coldValChildren] at hcval
            rw [if_neg (fun hm => hdisj hm hcm)] at hcval
            exact ⟨hval, c, h2, hcval⟩
end

/-- Forest version of `coldCrit_iff`. -/
theorem coldForestCrit_iff (m : DMModel) (vp : Viewport) (th : Rat) :
    ∀ (ts : List RTree) (x : Nat), (subtreeIdsList ts).Nodup →
    (coldForestCrit m vp th ts x = true
      ↔ coldForestVal m vp th ts x = some true
        ∧ ∃ c, (c, x) ∈ forestPairs ts ∧ coldForestVal m vp th ts c = some false)
  | [], x, _ => by
    rw [coldForestCrit, coldForestVal, forestPairs]
    simp
  | t :: rest, x, hnd => by
    rw [subtreeIdsList] at hnd
    have hndt := (List.nodup_append.mp hnd).1
    have hndr := (List.nodup_append.mp hnd).2.1
    have hdisj := (List.nodup_append.mp hnd).2.2
    rw [coldForestCrit, coldForestVal, forestPairs]
    by_cases hxt : x ∈ subtreeIds t
    · rw [if_pos hxt, if_pos hxt]
      by_cases htest : getExpansionState m t vp th = true
      · rw [if_pos htest, htest]
        simp only [Bool.true_and]
        rw [coldCrit_iff m vp th t x hndt]
        constructor
        · rintro ⟨hval, c, hpair, hcval⟩
          refine ⟨hval, c, List.mem_append_left _ hpair, ?_⟩
          have hcm := (parentPairsTree_mem c x t hpair).1
          rw [coldForestVal]
          rw [if_pos hcm, if_pos htest]
          exact hcval
        · rintro ⟨hval, c, hpair, hcval⟩
          rcases List.mem_append.mp hpair with h1 | h1
          · have hcm := (parentPairsTree_mem c x t h1).1
            rw [coldForestVal] at hcval
            rw [if_pos hcm, if_pos htest] at hcval
            exact ⟨hval, c, h1, hcval⟩
          · exact absurd (forestPairs_mem c x rest h1).2 (fun hm => hdisj hxt hm)
      · rw [if_neg htest]
        rw [Bool.not_eq_true] at htest
        rw [htest]
        constructor
        · intro habs
          simp at habs
        · rintro ⟨hval, -⟩
          exact absurd hval (by simp)
    · rw [if_neg hxt, if_neg hxt]
      rw [coldForestCrit_iff m vp th rest x hndr]
      constructor
      · rintro ⟨hval, c, hpair, hcval⟩
        refine ⟨hval, c, List.mem_append_right _ hpair, ?_⟩
        have hcm := (forestPairs_mem c x rest hpair).1
        rw [coldForestVal]
        rw [if_neg (fun hm => hdisj hm hcm)]
        exact hcval
      · rintro ⟨hval, c, hpair, hcval⟩
        rcases List.mem_append.mp hpair with h1 | h1
        · exact absurd (parentPairsTree_mem c x t h1).2 hxt
        · have hcm := (forestPairs_mem c x rest h1).1
          rw [coldForestVal] at hcval
          rw [if_neg (fun hm => hdisj hm hcm)] at hcval
          exact ⟨hval, c, h1, hcval⟩

/--
Claim C3 (amended): after the FIRST `expandCollapse` call on a freshly
constructed DepthMap with distinct region ids, a Region is in
`criticalRegions` iff its `expansionState` is EXPANDED and it has at
least one child Region whose `expansionState` is COLLAPSED; in
particular no COLLAPSED region is in `criticalRegions` at that point.
(Subsequent incremental calls can break this — see the
counterexample, where a collapsed region sits in `criticalRegions`.)
-/
theorem criticalRegions_characterization_after_first_call (m : DMModel)
    (opts : Option Rat) (vp : Viewport) (x : Nat)
    (hnd : (subtreeIdsList m.forest).Nodup) :
    x ∈ (expandCollapse m opts vp freshState).critical
    ↔ (expandCollapse m opts vp freshState).regExp x = some true
      ∧ ∃ c, (c, x) ∈ forestPairs m.forest
          ∧ (expandCollapse m opts vp freshState).regExp c = some false := by
  have h1 := (expandCollapse_fresh_char m opts vp hnd).1
  have h2 := (expandCollapse_fresh_char m opts vp hnd).2
  rw [h2 x]
  simp only [h1]
  exact coldForestCrit_iff m vp (thresholdOf opts) m.forest x hnd

/--
Witness for the amended claim C3 at a concrete input: after the first
call on `mCollapsedCrit` at `vpA`, region 2 is expanded with collapsed
child 4, so the theorem places it in `criticalRegions`.
-/
theorem criticalRegions_characterization_after_first_call_witness :
    2 ∈ (expandCollapse mCollapsedCrit none vpA freshState).critical :=
  (criticalRegions_characterization_after_first_call mCollapsedCrit none vpA 2
    (by decide)).mpr ⟨by decide, 4, by decide, by decide⟩

/-!  Frame properties of the cold-start pass, for the untouched-subtree claim. -/

/-- Folded element updates leave unlisted elements unchanged. -/
theorem foldUpd_frame (v : Option Bool) :
    ∀ (l : List Nat) (f : Nat → Option Bool) (e : Nat), e ∉ l →
    (l.foldl (fun g x => upd g x v) f) e = f e
  | [], _, _, _ => rfl
  | a :: l, f, e, h => by
    rw [List.foldl_cons]
    rw [foldUpd_frame v l _ e (fun hm => h (List.mem_cons_of_mem _ hm))]
    rw [upd]
    rw [if_neg (by intro he; exact h (by rw [he]; exact List.mem_cons_self _ _))]

/-- `setExpansionState` leaves other regions unchanged. -/
theorem setExpSt_regExp_frame (t : RTree) (b : Bool) (s : DMState) (x : Nat)
    (h : ¬ x = t.rid) : (setExpSt t b s).regExp x = s.regExp x := by
  rw [setExpSt_regExp, if_neg h]

/-- `setExpansionState` leaves unlisted elements unchanged. -/
theorem setExpSt_elemExp_frame (t : RTree) (b : Bool) (s : DMState) (e : Nat)
    (h : e ∉ t.elements) : (setExpSt t b s).elemExp e = s.elemExp e :=
  foldUpd_frame (some b) t.elements s.elemExp e h

/-- Deleting from a JavaScript set can only lose members. -/
theorem ordErase_sub : ∀ (l : List Nat) (i x : Nat), x ∈ ordErase l i → x ∈ l
  | j :: l, i, x, h => by
    rw [ordErase] at h
    by_cases hj : j = i
    · rw [if_pos hj] at h
      exact List.mem_cons_of_mem _ h
    · rw [if_neg hj] at h
      rcases List.mem_cons.mp h with h1 | h1
      · exact h1 ▸ List.mem_cons_self _ _
      · exact List.mem_cons_of_mem _ (ordErase_sub l i x h1)

/-- An element of a region is an element of its subtree. -/
theorem elements_sub (t : RTree) (e : Nat) (h : e ∈ t.elements) : e ∈ subtreeElems t := by
  obtain ⟨i, b, a, es, cs⟩ := t
  rw [RTree.elements] at h
  rw [subtreeElems]
  exact List.mem_append_left _ h

/-- A subtree id of a child list is a subtree id of the parent tree. -/
theorem childIds_sub (t : RTree) (x : Nat) (h : x ∈ subtreeIdsList t.children) :
    x ∈ subtreeIds t := by
  obtain ⟨i, b, a, es, cs⟩ := t
  rw [RTree.children] at h
  rw [subtreeIds]
  exact List.mem_cons_of_mem _ h

/-- A subtree element of a child list is a subtree element of the parent tree. -/
theorem childElems_sub (t : RTree) (e : Nat) (h : e ∈ subtreeElemsList t.children) :
    e ∈ subtreeElems t := by
  obtain ⟨i, b, a, es, cs⟩ := t
  rw [RTree.children] at h
  rw [subtreeElems]
  exact List.mem_append_right _ h

mutual
/-- `recursiveCollapseRegion` only writes inside its subtree and only
removes critical entries. -/
theorem rc_frame : ∀ (t : RTree) (s : DMState),
    (∀ x, x ∉ subtreeIds t → (rc t s).regExp x = s.regExp x)
    ∧ (∀ e, e ∉ subtreeElems t → (rc t s).elemExp e = s.elemExp e)
    ∧ (∀ x, x ∈ (rc t s).critical → x ∈ s.critical)
  | .node i b a es cs, s => by
    rw [rc]
    have hlist := rcChildren_frame cs
    refine ⟨?_, ?_, ?_⟩
    · intro x hx
      rw [(hlist _).1 x (fun hm => hx (childIds_sub _ x hm))]
      exact setExpSt_regExp_frame _ false s x
        (by intro he; exact hx (by rw [he]; exact rid_mem _))
    · intro e he
      rw [(hlist _).2.1 e (fun hm => he (childElems_sub _ e hm))]
      exact setExpSt_elemExp_frame _ false s e
        (fun hm => he (elements_sub (RTree.node i b a es cs) e hm))
    · intro x hx
      have h1 := (hlist _).2.2 x hx
      rw [setExpSt_critical] at h1
      exact ordErase_sub _ _ _ h1

/-- Child-list version of `rc_frame`. -/
theorem rcChildren_frame : ∀ (ts : List RTree) (s : DMState),
    (∀ x, x ∉ subtreeIdsList ts → (rcChildren ts s).regExp x = s.regExp x)
    ∧ (∀ e, e ∉ subtreeElemsList ts → (rcChildren ts s).elemExp e = s.elemExp e)
    ∧ (∀ x, x ∈ (rcChildren ts s).critical → x ∈ s.critical)
  | [], s => by
    rw [rcChildren]
    exact ⟨fun _ _ => rfl, fun _ _ => rfl, fun _ h => h⟩
  | c :: rest, s => by
    rw [rcChildren]
    rw [subtreeIdsList, subtreeElemsList]
    have hrest := rcChildren_frame rest
    have hstep := rc_frame c s
    refine ⟨?_, ?_, ?_⟩
    · intro x hx
      rw [(hrest _).1 x (fun hm => hx (List.mem_append_right _ hm))]
      split
      · exact (rc_frame c s).1 x (fun hm => hx (List.mem_append_left _ hm))
      · rfl
    · intro e he
      rw [(hrest _).2.1 e (fun hm => he (List.mem_append_right _ hm))]
      split
      · exact (rc_frame c s).2.1 e (fun hm => he (List.mem_append_left _ hm))
      · rfl
    · intro x hx
      have h1 := (hrest _).2.2 x hx
      revert h1
      split
      · exact fun h1 => (rc_frame c s).2.2 x h1
      · exact fun h1 => h1
end

mutual
/-- `searchUntilCollapse` only writes inside its subtree and only adds
its own subtree ids to the critical set. -/
theorem sUC_frame (m : DMModel) (vp : Viewport) (th : Rat) : ∀ (t : RTree) (s : DMState),
    (∀ x, x ∉ subtreeIds t → (sUC m vp th t s).regExp x = s.regExp x)
    ∧ (∀ e, e ∉ subtreeElems t → (sUC m vp th t s).elemExp e = s.elemExp e)
    ∧ (∀ x, x ∈ (sUC m vp th t s).critical → x ∈ s.critical ∨ x ∈ subtreeIds t)
  | .node i b a es cs, s => by
    rw [sUC]
    have hlist := sUCChildren_frame m vp th i cs
    refine ⟨?_, ?_, ?_⟩
    · intro x hx
      rw [(hlist _).1 x (fun hm => hx (childIds_sub _ x hm))]
      exact setExpSt_regExp_frame _ true s x
        (by intro he; exact hx (by rw [he]; exact rid_mem _))
    · intro e he
      rw [(hlist _).2.1 e (fun hm => he (childElems_sub _ e hm))]
      exact setExpSt_elemExp_frame _ true s e
        (fun hm => he (elements_sub (RTree.node i b a es cs) e hm))
    · intro x hx
      rcases (hlist _).2.2 x hx with h1 | h1 | h1
      · rw [setExpSt_critical] at h1
        exact Or.inl h1
      · exact Or.inr (h1 ▸ rid_mem (RTree.node i b a es cs))
      · exact Or.inr (childIds_sub _ x h1)

/-- Child-list version of `sUC_frame`. -/
theorem sUCChildren_frame (m : DMModel) (vp : Viewport) (th : Rat) :
    ∀ (pid : Nat) (ts : List RTree) (s : DMState),
    (∀ x, x ∉ subtreeIdsList ts → (sUCChildren m vp th pid ts s).regExp x = s.regExp x)
    ∧ (∀ e, e ∉ subtreeElemsList ts → (sUCChildren m vp th pid ts s).elemExp e = s.elemExp e)
    ∧ (∀ x, x ∈ (sUCChildren m vp th pid ts s).critical
        → x ∈ s.critical ∨ x = pid ∨ x ∈ subtreeIdsList ts)
  | pid, [], s => by
    rw [sUCChildren]
    exact ⟨fun _ _ => rfl, fun _ _ => rfl, fun _ h => Or.inl h⟩
  | pid, c :: rest, s => by
    rw [sUCChildren]
    rw [subtreeIdsList, subtreeElemsList]
    have hrest := sUCChildren_frame m vp th pid rest
    refine ⟨?_, ?_, ?_⟩
    · intro x hx
      rw [(hrest _).1 x (fun hm => hx (List.mem_append_right _ hm))]
      split
      · split
        · rw [(rc_frame c _).1 x (fun hm => hx (List.mem_append_left _ hm))]
        · exact (sUC_frame m vp th c s).1 x (fun hm => hx (List.mem_append_left _ hm))
      · rfl
    · intro e he
      rw [(hrest _).2.1 e (fun hm => he (List.mem_append_right _ hm))]
      split
      · split
        · rw [(rc_frame c _).2.1 e (fun hm => he (List.mem_append_left _ hm))]
        · exact (sUC_frame m vp th c s).2.1 e (fun hm => he (List.mem_append_left _ hm))
      · rfl
    · intro x hx
      have h1 := (hrest _).2.2 x hx
      rcases h1 with h1 | h1 | h1
      · revert h1
        split
        · split
          · intro h1
            have h2 := (rc_frame c _).2.2 x h1
            rcases (ordAdd_mem s.critical pid x).mp h2 with h3 | h3
            · exact Or.inl h3
            · exact Or.inr (Or.inl h3)
          · intro h1
            rcases (sUC_frame m vp th c s).2.2 x h1 with h2 | h2
            · exact Or.inl h2
            · exact Or.inr (Or.inr (List.mem_append_left _ h2))
        · exact fun h1 => Or.inl h1
      · exact Or.inr (Or.inl h1)
      · exact Or.inr (Or.inr (List.mem_append_right _ h1))
end

/-- Subtree ids of a listed tree are forest ids. -/
theorem subtree_ids_sub : ∀ (ts : List RTree) (r : RTree), r ∈ ts →
    ∀ x ∈ subtreeIds r, x ∈ subtreeIdsList ts
  | t :: rest, r, h, x, hx => by
    rw [subtreeIdsList]
    rcases List.mem_cons.mp h with h1 | h1
    · exact List.mem_append_left _ (h1 ▸ hx)
    · exact List.mem_append_right _ (subtree_ids_sub rest r h1 x hx)

/-- Subtree elements of a listed tree are forest elements. -/
theorem subtree_elems_sub : ∀ (ts : List RTree) (r : RTree), r ∈ ts →
    ∀ e ∈ subtreeElems r, e ∈ subtreeElemsList ts
  | t :: rest, r, h, e, he => by
    rw [subtreeElemsList]
    rcases List.mem_cons.mp h with h1 | h1
    · exact List.mem_append_left _ (h1 ▸ he)
    · exact List.mem_append_right _ (subtree_elems_sub rest r h1 e he)

/-- The cold-start fold only writes inside the processed subtrees and
only ever adds processed subtree ids to the critical set. -/
theorem coldFold_frame (m : DMModel) (vp : Viewport) (th : Rat) :
    ∀ (ts : List RTree) (s : DMState),
    (∀ x, x ∉ subtreeIdsList ts → (ts.foldl
        (fun st t => if getExpansionState m t vp th = true then sUC m vp th t st else st)
        s).regExp x = s.regExp x)
    ∧ (∀ e, e ∉ subtreeElemsList ts → (ts.foldl
        (fun st t => if getExpansionState m t vp th = true then sUC m vp th t st else st)
        s).elemExp e = s.elemExp e)
    ∧ (∀ x, x ∈ (ts.foldl
        (fun st t => if getExpansionState m t vp th = true then sUC m vp th t st else st)
        s).critical → x ∈ s.critical ∨ x ∈ subtreeIdsList ts)
  | [], s => ⟨fun _ _ => rfl, fun _ _ => rfl, fun _ h => Or.inl h⟩
  | t :: rest, s => by
    rw [List.foldl_cons, subtreeIdsList, subtreeElemsList]
    have hrest := coldFold_frame m vp th rest
    refine ⟨?_, ?_, ?_⟩
    · intro x hx
      rw [(hrest _).1 x (fun hm => hx (List.mem_append_right _ hm))]
      split
      · exact (sUC_frame m vp th t s).1 x (fun hm => hx (List.mem_append_left _ hm))
      · rfl
    · intro e he
      rw [(hrest _).2.1 e (fun hm => he (List.mem_append_right _ hm))]
      split
      · exact (sUC_frame m vp th t s).2.1 e (fun hm => he (List.mem_append_left _ hm))
      · rfl
    · intro x hx
      rcases (hrest _).2.2 x hx with h1 | h1
      · revert h1
        split
        · intro h1
          rcases (sUC_frame m vp th t s).2.2 x h1 with h2 | h2
          · exact Or.inl h2
          · exact Or.inr (List.mem_append_left _ h2)
        · exact fun h1 => Or.inl h1
      · exact Or.inr (List.mem_append_right _ h1)

/-- During the cold-start fold, a root that tests COLLAPSED has its
whole subtree left untouched. -/
theorem coldFold_skip_subtree (m : DMModel) (vp : Viewport) (th : Rat) :
    ∀ (ts : List RTree) (s : DMState) (r : RTree), r ∈ ts →
    (subtreeIdsList ts).Nodup → (subtreeElemsList ts).Nodup →
    getExpansionState m r vp th = false →
    (∀ x ∈ subtreeIds r, (ts.foldl
        (fun st t => if getExpansionState m t vp th = true then sUC m vp th t st else st)
        s).regExp x = s.regExp x
      ∧ (x ∈ (ts.foldl
        (fun st t => if getExpansionState m t vp th = true then sUC m vp th t st else st)
        s).critical → x ∈ s.critical))
    ∧ (∀ e ∈ subtreeElems r, (ts.foldl
        (fun st t => if getExpansionState m t vp th = true then sUC m vp th t st else st)
        s).elemExp e = s.elemExp e)
  | t :: rest, s, r, hmem, hnd, hnde, htest => by
    rw [List.foldl_cons]
    rw [subtreeIdsList] at hnd
    rw [subtreeElemsList] at hnde
    have hndr := (List.nodup_append.mp hnd).2.1
    have hdisj := (List.nodup_append.mp hnd).2.2
    have hnder := (List.nodup_append.mp hnde).2.1
    have hedisj := (List.nodup_append.mp hnde).2.2
    rcases List.mem_cons.mp hmem with h1 | h1
    · subst h1
      rw [if_neg (by rw [htest]; simp)]
      constructor
      · intro x hx
        have hxr : x ∉ subtreeIdsList rest := fun hm => hdisj hx hm
        refine ⟨(coldFold_frame m vp th rest s).1 x hxr, fun hc => ?_⟩
        rcases (coldFold_frame m vp th rest s).2.2 x hc with h2 | h2
        · exact h2
        · exact absurd h2 hxr
      · intro e he
        exact (coldFold_frame m vp th rest s).2.1 e (fun hm => hedisj he hm)
    · have hids : ∀ x ∈ subtreeIds r, x ∈ subtreeIdsList rest :=
        subtree_ids_sub rest r h1
      have helems : ∀ e ∈ subtreeElems r, e ∈ subtreeElemsList rest :=
        subtree_elems_sub rest r h1
      have ih := coldFold_skip_subtree m vp th rest
        (if getExpansionState m t vp th = true then sUC m vp th t s else s)
        r h1 hndr hnder htest
      constructor
      · intro x hx
        have hxt : x ∉ subtreeIds t := fun hm => hdisj hm (hids x hx)
        refine ⟨?_, ?_⟩
        · rw [(ih.1 x hx).1]
          split
          · exact (sUC_frame m vp th t s).1 x hxt
          · rfl
        · intro hc
          have h2 := (ih.1 x hx).2 hc
          revert h2
          split
          · intro h2
            rcases (sUC_frame m vp th t s).2.2 x h2 with h3 | h3
            · exact h3
            · exact absurd h3 hxt
          · exact fun h2 => h2
      · intro e he
        have het : e ∉ subtreeElems t := fun hm => hedisj hm (helems e he)
        rw [ih.2 e he]
        split
        · exact (sUC_frame m vp th t s).2.1 e het
        · rfl

/--
Claim C10: on a cold-start `expandCollapse` call (empty
`criticalRegions`), a root region whose expansion test returns
COLLAPSED is left entirely untouched: no region `expansionState` in its
subtree is written, no element `expansionState` in its subtree is
written, and nothing from its subtree enters `criticalRegions`
(region and element ids are assumed distinct across the forest, as
`init` produces them).
-/
theorem coldStart_collapsed_root_untouched (m : DMModel) (opts : Option Rat)
    (vp : Viewport) (s : DMState) (r : RTree)
    (hmem : r ∈ m.forest)
    (hnd : (subtreeIdsList m.forest).Nodup)
    (hnde : (subtreeElemsList m.forest).Nodup)
    (hcrit : s.critical = [])
    (htest : getExpansionState m r vp (thresholdOf opts) = false) :
    (∀ x ∈ subtreeIds r, (expandCollapse m opts vp s).regExp x = s.regExp x
        ∧ x ∉ (expandCollapse m opts vp s).critical)
    ∧ (∀ e ∈ subtreeElems r, (expandCollapse m opts vp s).elemExp e = s.elemExp e) := by
  rw [expandCollapse]
  split
  · exact ⟨fun x hx => ⟨rfl, by rw [hcrit]; exact List.not_mem_nil x⟩, fun e he => rfl⟩
  · rw [if_pos (by rw [hcrit]; rfl)]
    have hskip := coldFold_skip_subtree m vp (thresholdOf opts) m.forest
      { s with viewport := some ⟨vp.scroll, vp.scrollId, vp.zoom⟩ } r hmem hnd hnde htest
    constructor
    · intro x hx
      refine ⟨(hskip.1 x hx).1, fun hc => ?_⟩
      have h2 := (hskip.1 x hx).2 hc
      rw [hcrit] at h2
      exact List.not_mem_nil x h2
    · intro e he
      exact hskip.2 e he

/--
Witness for claim C10 at a concrete input: on `mTwoRoots` the root
region 5 is off-screen at `vpA`, so its state is untouched by the
cold-start call and it is not critical afterwards.
-/
theorem coldStart_collapsed_root_untouched_witness :
    (expandCollapse mTwoRoots none vpA freshState).regExp 5 = freshState.regExp 5
    ∧ 5 ∉ (expandCollapse mTwoRoots none vpA freshState).critical :=
  (coldStart_collapsed_root_untouched mTwoRoots none vpA freshState trFar
    (List.mem_cons_of_mem _ (List.mem_cons_self _ _))
    (by decide) (by decide) rfl (by decide)).1 5 (by decide)

/-!  The constraint resolver: supporting lemmas. -/

/-- Committing the shadow position leaves the layout properties unchanged. -/
theorem commitShadow_properties (n : KNode) :
    (commitShadow n).properties = n.properties := by
  unfold commitShadow
  split <;> rfl

/-- The coordinates `getLayers` extracts from a node are invariant under
committing the shadow position. -/
theorem currentCoords_commitShadow (direction : Direction) (n : KNode) :
    currentCoords direction (commitShadow n) = currentCoords direction n := by
  cases hs : n.shadow <;> cases direction <;>
    simp [commitShadow, currentCoords, hs]

/-- Insertion commutes with a map that respects the comparisons. -/
theorem ordInsert_map {α β : Type} (f : α → β) (le : α → α → Bool)
    (le' : β → β → Bool) (h : ∀ a b, le' (f a) (f b) = le a b)
    (x : α) (l : List α) :
    ordInsert le' (f x) (l.map f) = (ordInsert le x l).map f := by
  induction l with
  | nil => rfl
  | cons y ys ih =>
    simp only [List.map, ordInsert, h]
    cases hc : le x y <;> simp [hc, ih]

/-- The stable sort commutes with a map that respects the comparisons. -/
theorem stableSort_map {α β : Type} (f : α → β) (le : α → α → Bool)
    (le' : β → β → Bool) (h : ∀ a b, le' (f a) (f b) = le a b)
    (l : List α) :
    stableSort le' (l.map f) = (stableSort le l).map f := by
  induction l with
  | nil => rfl
  | cons x xs ih =>
    simp only [List.map, stableSort, ih]
    exact ordInsert_map f le le' h x (stableSort le xs)

/-- Sorting by layer id commutes with committing shadow positions. -/
theorem sortByLayerId_commitShadow (nodes : List KNode) :
    sortByLayerId (nodes.map commitShadow) =
      (sortByLayerId nodes).map commitShadow := by
  unfold sortByLayerId
  exact stableSort_map commitShadow _ _
    (fun a b => by rw [commitShadow_properties, commitShadow_properties]) nodes

/-- One `getLayers` loop step is invariant under committing the node's
shadow position. -/
theorem getLayersStep_commitShadow (direction : Direction) (st : GLState)
    (n : KNode) :
    getLayersStep direction st (commitShadow n) = getLayersStep direction st n := by
  simp only [getLayersStep, commitShadow_properties, currentCoords_commitShadow]

/-- Membership in an insertion. -/
theorem mem_ordInsert {α : Type} (le : α → α → Bool) (x a : α) (l : List α)
    (h : a ∈ ordInsert le x l) : a = x ∨ a ∈ l := by
  induction l with
  | nil =>
    simp only [ordInsert] at h
    exact Or.inl (List.mem_singleton.mp h)
  | cons y ys ih =>
    simp only [ordInsert] at h
    by_cases hc : le x y = true
    · rw [if_pos hc] at h
      rcases List.mem_cons.mp h with h | h
      · exact Or.inl h
      · exact Or.inr h
    · rw [if_neg hc] at h
      rcases List.mem_cons.mp h with h | h
      · exact Or.inr (by rw [h]; exact List.mem_cons_self y ys)
      · rcases ih h with h | h
        · exact Or.inl h
        · exact Or.inr (List.mem_cons_of_mem y h)

/-- Membership in the stable sort implies membership in the input. -/
theorem mem_stableSort {α : Type} (le : α → α → Bool) (a : α) (l : List α)
    (h : a ∈ stableSort le l) : a ∈ l := by
  induction l with
  | nil => simpa [stableSort] using h
  | cons x xs ih =>
    simp only [stableSort] at h
    rcases mem_ordInsert le x a _ h with h | h
    · rw [h]; exact List.mem_cons_self x xs
    · exact List.mem_cons_of_mem x (ih h)

/-- Membership in the cross-axis sort implies membership in the input. -/
theorem mem_sortByCross (direction : Direction) (a : KNode) (l : List KNode)
    (h : a ∈ sortByCross direction l) : a ∈ l := by
  cases direction <;> exact mem_stableSort _ a l h

/-- A node absent from a list has no index in it. -/
theorem idxOf_eq_none (t : KNode) (l : List KNode)
    (h : ∀ n ∈ l, n ≠ t) : idxOf t l = none := by
  induction l with
  | nil => rfl
  | cons n rest ih =>
    simp only [idxOf]
    rw [if_neg (h n (List.mem_cons_self n rest)),
      ih (fun m hm => h m (List.mem_cons_of_mem n hm))]
    rfl

/--
Counterexample to claim C4: `getLayerOfNode` reads the committed
position of a dragged node, not its shadow position.  A node committed
in layer 0 (x-center 50) and dragged to shadow x-center 150 still
resolves to layer 0, while the spec-side shadow-aware resolution gives
layer 1.
-/
theorem getLayerOfNode_reads_committed_position :
    cnShadow.shadow = true ∧
    getLayerOfNode cnShadow [cnShadow] cLayers .RIGHT = 0 ∧
    getLayerOfNodeShadowAware cnShadow [cnShadow] cLayers .RIGHT = 1 := by
  decide

/--
Claim C4 (corrected): only `getLayers` evaluates a dragged node at its
shadow position — committing every shadow position leaves its output
unchanged — while `getLayerOfNode` and `getPositionInLayer` read the
committed position only: erasing the target's shadow fields changes
neither (for `getPositionInLayer` when the target is not among the
layer's nodes, where the source's `indexOf` compares whole nodes).
-/
theorem shadow_usage_characterization (nodes : List KNode) (node : KNode)
    (layers : List Layer) (direction : Direction) (others : List KNode)
    (h : ∀ n ∈ others, n.id ≠ node.id) :
    getLayers (nodes.map commitShadow) direction = getLayers nodes direction ∧
    getLayerOfNode (clearShadow node) nodes layers direction =
      getLayerOfNode node nodes layers direction ∧
    getPositionInLayer others (clearShadow node) direction =
      getPositionInLayer others node direction := by
  refine ⟨?_, rfl, ?_⟩
  · unfold getLayers
    rw [sortByLayerId_commitShadow, List.foldl_map]
    have hstep : (fun (st : GLState) (n : KNode) =>
        getLayersStep direction st (commitShadow n)) = getLayersStep direction :=
      funext fun st => funext fun n => getLayersStep_commitShadow direction st n
    rw [hstep]
  · have h1 : idxOf (clearShadow node) (sortByCross direction others) = none :=
      idxOf_eq_none _ _ (fun n hn he =>
        h n (mem_sortByCross direction n others hn) (by rw [he]; rfl))
    have h2 : idxOf node (sortByCross direction others) = none :=
      idxOf_eq_none _ _ (fun n hn he =>
        h n (mem_sortByCross direction n others hn) (by rw [he]))
    simp only [getPositionInLayer]
    rw [h1, h2]
    rfl

/--
Witness for claim C4 at concrete inputs: committing the dragged node's
shadow leaves `getLayers` unchanged, and erasing its shadow fields
changes neither `getLayerOfNode` nor `getPositionInLayer`.
-/
theorem shadow_usage_characterization_witness :
    getLayers ([cnShadow].map commitShadow) .RIGHT = getLayers [cnShadow] .RIGHT ∧
    getLayerOfNode (clearShadow cnShadow) [cnShadow] cLayers .RIGHT =
      getLayerOfNode cnShadow [cnShadow] cLayers .RIGHT ∧
    getPositionInLayer [cnOther] (clearShadow cnShadow) .RIGHT =
      getPositionInLayer [cnOther] cnShadow .RIGHT :=
  shadow_usage_characterization [cnShadow] cnShadow cLayers .RIGHT [cnOther]
    (by decide)

/-- Over a list of layers that all fail the test, `find?` skips. -/
theorem find?_skip_failing {α : Type} (p : α → Bool) (l₁ l₂ : List α)
    (h : ∀ x ∈ l₁, p x = false) : (l₁ ++ l₂).find? p = l₂.find? p := by
  induction l₁ with
  | nil => rfl
  | cons x xs ih =>
    rw [List.cons_append,
      List.find?_cons_of_neg _ (by simp [h x (List.mem_cons_self x xs)])]
    exact ih (fun y hy => h y (List.mem_cons_of_mem x hy))

/--
Counterexample to claim C6: `getLayerOfNode` never compares against a
layer's begin coordinate.  A node whose x-center (-50) lies left of
every layer is mapped to layer 0 — the first layer whose end exceeds
the coordinate — while interval containment finds no layer and the
spec-side fallback assigns the fresh last index 3.
-/
theorem getLayerOfNode_no_lower_bound_check :
    nodeAxisCoord cnLeft .RIGHT = -50 ∧
    getLayerOfNode cnLeft [cnLeft] cLayers .RIGHT = 0 ∧
    getLayerOfNodeContainment cnLeft [cnLeft] cLayers .RIGHT = 3 := by
  decide

/--
Claim C6 (corrected): `getLayerOfNode` returns the id of the first
layer, in list order, whose end-bound test passes (`coordinate <
layer.end` for forward directions, reversed for LEFT and UP); no
lower-bound (containment) check is made.  When every layer fails the
test, the node keeps the last layer's id exactly when that layer's
sole occupant is marked selected, and gets `last.id + 1` otherwise.
-/
theorem getLayerOfNode_first_end_match (node : KNode) (nodes : List KNode)
    (layers l₁ l₂ : List Layer) (l : Layer) (direction : Direction) :
    (layers = l₁ ++ l :: l₂ →
      (∀ x ∈ l₁,
        layerEndTest (nodeAxisCoord node direction) direction x = false) →
      layerEndTest (nodeAxisCoord node direction) direction l = true →
      getLayerOfNode node nodes layers direction = l.id) ∧
    ((∀ x ∈ layers,
        layerEndTest (nodeAxisCoord node direction) direction x = false) →
      layers.getLast? = some l →
      getLayerOfNode node nodes layers direction =
        (match getNodesOfLayer l.id nodes with
         | [n] => if n.selected then l.id else l.id + 1
         | _ => l.id + 1)) := by
  constructor
  · intro heq h1 h2
    subst heq
    unfold getLayerOfNode
    rw [find?_skip_failing _ _ _ h1, List.find?_cons_of_pos _ h2]
  · intro hall hlast
    unfold getLayerOfNode
    rw [List.find?_eq_none.mpr (fun x hx => by simp [hall x hx]), hlast]

/--
Witness for claim C6: the spec's scenario — a node with x-center 150
against the layers [0,100) [100,220) [220,300) resolves to layer 1.
-/
theorem getLayerOfNode_first_end_match_witness :
    getLayerOfNode s150 [s150] cLayers .RIGHT = 1 :=
  (getLayerOfNode_first_end_match s150 [s150] cLayers [cL0] [cL2] cL1 .RIGHT).1
    rfl (by decide) (by decide)

/--
Claim C7: if the layer resolved for the drop position equals the
target's current `layerId` and the in-layer position resolved in that
layer equals its current `positionId`, `setProperty` returns the
refresh (snap-back) action and no constraint action of any kind.
-/
theorem setProperty_no_effective_change_refresh (nodes : List KNode)
    (layers : List Layer) (targetNode : KNode)
    (hl : getLayerOfNode targetNode nodes layers targetNode.direction =
      targetNode.properties.layerId)
    (hp : getPositionInLayer
        (getNodesOfLayer targetNode.properties.layerId nodes)
        targetNode targetNode.direction = targetNode.properties.positionId) :
    setProperty nodes layers targetNode = Action.refreshDiagram := by
  unfold setProperty
  by_cases hf : isLayerForbidden targetNode
      (getActualLayer targetNode nodes
        (getLayerOfNode targetNode nodes layers targetNode.direction)) nodes = true
  · simp [hf]
  · simp [hf, hl, hp]

/--
Witness for claim C7: a node dropped at exactly its committed layer
and position snaps back with a refresh.
-/
theorem setProperty_no_effective_change_refresh_witness :
    setProperty [n7] cLayers n7 = Action.refreshDiagram :=
  setProperty_no_effective_change_refresh [n7] cLayers n7 (by decide) (by decide)

/--
Claim C8: if some node connected to the dragged node's chain by an
incoming or outgoing edge already sits, with a pinned layer
constraint, in the layer the drag resolves to (after the layer boost),
then `setProperty` returns the refresh (snap-back) action — in
particular no `SetLayerConstraintAction` placing the target there.
-/
theorem setProperty_rejects_forbidden_layer (nodes : List KNode)
    (layers : List Layer) (targetNode : KNode) (n : KNode)
    (hmem : n ∈ chainConnectedNodes targetNode nodes)
    (hlid : n.properties.layerId =
      getActualLayer targetNode nodes
        (getLayerOfNode targetNode nodes layers targetNode.direction))
    (hcons : n.properties.layerConstraint ≠ -1) :
    setProperty nodes layers targetNode = Action.refreshDiagram := by
  have hf : isLayerForbidden targetNode
      (getActualLayer targetNode nodes
        (getLayerOfNode targetNode nodes layers targetNode.direction)) nodes = true := by
    unfold isLayerForbidden
    rw [List.any_eq_true]
    exact ⟨n, hmem, by simp [hlid, hcons]⟩
  unfold setProperty
  simp [hf]

/--
Witness for claim C8: node A (dragged to x-center 235, resolving to
layer 2) has an edge to node B, which is pinned into layer 2 by a
layer constraint; the drop snaps back.
-/
theorem setProperty_rejects_forbidden_layer_witness :
    setProperty [nA, nB] cLayers nA = Action.refreshDiagram :=
  setProperty_rejects_forbidden_layer [nA, nB] cLayers nA nB
    (by decide) (by decide) (by decide)

/--
Counterexample to claim C9: when the region-tree walk throws halfway,
the regions built before the throw survive on the returned instance.
On `cRoots` the walk throws at the malformed grandchild, yet the
caught instance holds both root regions and a non-empty region map —
not an empty region set.
-/
theorem failed_init_keeps_built_regions :
    initList cRoots freshInit = Except.error cPartial ∧
    getInstance cRoots = cPartial ∧
    cPartial.rootRegions ≠ [] ∧ cPartial.regionMap ≠ [] :=
  ⟨rfl, rfl, by decide, by decide⟩

/--
Claim C9 (corrected): a construction failure is caught inside
`getInstance` — the caller always receives an instance, never an
exception — but the instance keeps exactly the state accumulated up to
the throw (root regions, region map entries, region links and elements
written before the failure); nothing is reset to empty.
-/
theorem getInstance_returns_state_at_failure (roots : List SNode)
    (s : InitState) (h : initList roots freshInit = Except.error s) :
    getInstance roots = s := by
  unfold getInstance
  rw [h]

/--
Witness for claim C9: on the two-root model whose second subtree is
malformed, `getInstance` returns the partially built state.
-/
theorem getInstance_returns_state_at_failure_witness :
    getInstance cRoots = cPartial :=
  getInstance_returns_state_at_failure cRoots cPartial rfl

end KeithCore
